import Mathlib

/-!
Verification of the architecture-to-diagram converter
(`src/v1/architecture_to_excalidraw.py`).

The Python program is shallowly embedded below: Python dicts whose only
observed operations are insert-or-overwrite and lookup become association
lists, numeric coordinates become rationals (Python arithmetic here is exact:
integers plus a single halving division), `None`-able record fields become
`Option`, and the `KeyError` raises that the converter can produce on
malformed records become `Except String`.
-/

set_option maxHeartbeats 1000000

namespace ArchConv

/-- Association-list dictionary with string keys, modelling the Python dicts
of the converter: insert-or-overwrite (`dset`) keeps the original position of
an existing key, and lookup (`dget`) returns the unique binding. -/
abbrev Dict (α : Type) : Type := List (String × α)

/-- Lookup in a dictionary, modelling `d.get(k)` / `d[k]`. -/
def dget {α : Type} (d : Dict α) (k : String) : Option α :=
  (d.find? (fun kv => kv.1 == k)).map (fun kv => kv.2)

/-- Insert-or-overwrite, modelling `d[k] = v`. -/
def dset {α : Type} : Dict α → String → α → Dict α
  | [], k, v => [(k, v)]
  | (k', v') :: rest, k, v =>
      if k' = k then (k, v) :: rest else (k', v') :: dset rest k v

/-- A node record of the input document.  Fields the converter never consults
(`description`) are omitted; fields read with `.get` are `Option`s. -/
structure Node where
  id : String
  label : Option String
  type : Option String
  status : Option String
  tech_stack : Option String
  alerts : List String
  deriving DecidableEq

/-- An edge record of the input document. -/
structure Edge where
  source : String
  target : String
  interaction : Option String
  label : Option String
  deriving DecidableEq

/-- The `NodePosition` dataclass of the layout engine. -/
structure NodePosition where
  x : ℚ
  y : ℚ
  width : ℚ
  height : ℚ
  center_x : ℚ
  center_y : ℚ
  deriving DecidableEq

/-- A `stroke`/`fill` colour pair from `StyleConfig.STATUS_TO_COLOR`. -/
structure ColorPair where
  stroke : String
  fill : String
  deriving DecidableEq

/-- A line `style`/`width` pair from `StyleConfig.INTERACTION_TO_STROKE`. -/
structure StrokeConfig where
  style : String
  width : ℚ
  deriving DecidableEq

/-- `StyleConfig.TYPE_TO_SHAPE`. -/
def TYPE_TO_SHAPE : Dict String :=
  [("client", "ellipse"), ("gateway", "diamond"), ("service", "rectangle"),
   ("database", "rectangle"), ("cache", "rectangle"), ("queue", "rectangle"),
   ("third_party", "rectangle")]

/-- `StyleConfig.TYPE_TO_ICON`. -/
def TYPE_TO_ICON : Dict String :=
  [("client", "📱"), ("gateway", "🚪"), ("service", "⚙️"), ("database", "🗄️"),
   ("cache", "⚡"), ("queue", "📬"), ("third_party", "🔌")]

/-- `StyleConfig.STATUS_TO_COLOR`. -/
def STATUS_TO_COLOR : Dict ColorPair :=
  [("new", ⟨"#2f9e44", "#d3f9d8"⟩), ("modified", ⟨"#f59f00", "#fff3bf"⟩),
   ("stable", ⟨"#868e96", "#e9ecef"⟩)]

/-- `StyleConfig.INTERACTION_TO_STROKE`. -/
def INTERACTION_TO_STROKE : Dict StrokeConfig :=
  [("sync", ⟨"solid", 2⟩), ("async", ⟨"dashed", 2⟩)]

/-- `LayoutEngine.layer_spacing`. -/
def layer_spacing : ℚ := 250

/-- `LayoutEngine.node_spacing`. -/
def node_spacing : ℚ := 300

/-- `LayoutEngine.margin`. -/
def margin : ℚ := 100

/-- `StyleConfig.DEFAULT_NODE_SIZE["width"]`. -/
def DEFAULT_NODE_WIDTH : ℚ := 200

/-- `StyleConfig.DEFAULT_NODE_SIZE["height"]`. -/
def DEFAULT_NODE_HEIGHT : ℚ := 100

/-- `LayoutEngine._build_graph` (lines 169-177): the adjacency table maps every
node id to the list of targets of the edges whose `source` equals that id;
edges whose source is not a node id are dropped. -/
def build_graph (nodes : List Node) (edges : List Edge) : Dict (List String) :=
  let g := nodes.foldl (fun g n => dset g n.id []) []
  edges.foldl
    (fun g e =>
      match dget g e.source with
      | some ts => dset g e.source (ts ++ [e.target])
      | none => g)
    g

/-- Current value of a key in the in-degree dictionary
(`in_degree.get(target, 0)`; a missing key counts as zero). -/
def degOf (d : Dict Int) (k : String) : Int := (dget d k).getD 0

/-- The in-degree table built at the start of `_calculate_layers`
(lines 185-188): for every node, every target of its adjacency list gets its
counter bumped, starting from zero on every node id. -/
def init_in_degree (graph : Dict (List String)) (nodes : List Node) : Dict Int :=
  let d := nodes.foldl (fun d n => dset d n.id 0) []
  nodes.foldl
    (fun d n =>
      ((dget graph n.id).getD []).foldl (fun d t => dset d t (degOf d t + 1)) d)
    d

/-- The `remaining` set (`set(node["id"] for node in nodes)`, line 192),
modelled as a duplicate-free list; only membership and removal are observed. -/
def remaining_init (nodes : List Node) : List String :=
  nodes.foldl (fun s n => if n.id ∈ s then s else s ++ [n.id]) []

/-- The inner loop of `_calculate_layers` over the adjacency targets of one
current-layer node (lines 201-204): decrement the target's in-degree and, when
it reaches zero while the target is still unplaced, append the first input
node carrying that id to the next layer. -/
def process_targets (nodes : List Node) :
    List String → Dict Int × List String × List Node →
      Dict Int × List String × List Node
  | [], st => st
  | t :: ts, (deg, rem, nl) =>
      let deg' := dset deg t (degOf deg t - 1)
      let st' :=
        if degOf deg' t = 0 ∧ t ∈ rem then
          (deg', rem, nl ++ (nodes.find? (fun n => n.id == t)).toList)
        else (deg', rem, nl)
      process_targets nodes ts st'

/-- The loop of `_calculate_layers` over the nodes of the current layer
(lines 199-204): discard the node from `remaining`, then process its
adjacency targets. -/
def process_layer_nodes (graph : Dict (List String)) (nodes : List Node) :
    List Node → Dict Int × List String × List Node →
      Dict Int × List String × List Node
  | [], st => st
  | n :: rest, (deg, rem, nl) =>
      process_layer_nodes graph nodes rest
        (process_targets nodes ((dget graph n.id).getD []) (deg, rem.erase n.id, nl))

/-- The `while current_layer` loop of `_calculate_layers` (lines 195-206),
with explicit fuel standing in for the Python while loop; the fuel used by
`calculate_layers` is proved sufficient below (`layers_loop_fuel_stable`). -/
def layers_loop (graph : Dict (List String)) (nodes : List Node) :
    Nat → List Node → Dict Int → List String → List (List Node) × List String
  | 0, _, _, rem => ([], rem)
  | _ + 1, [], _, rem => ([], rem)
  | fuel + 1, cur, deg, rem =>
      let st := process_layer_nodes graph nodes cur (deg, rem, [])
      let rec' := layers_loop graph nodes fuel st.2.2 st.1 st.2.1
      (cur :: rec'.1, rec'.2)

/-- `LayoutEngine._calculate_layers` (lines 179-213): Kahn-style batching from
the in-degree-zero nodes, followed by one catch-all layer holding whatever is
still in `remaining` (cycle participants), in original input order. -/
def calculate_layers (graph : Dict (List String)) (nodes : List Node) :
    List (List Node) :=
  let deg := init_in_degree graph nodes
  let rem := remaining_init nodes
  let cur := nodes.filter (fun n => degOf deg n.id = 0)
  let res := layers_loop graph nodes (nodes.length + 1) cur deg rem
  if res.2.isEmpty then res.1
  else res.1 ++ [nodes.filter (fun n => decide (n.id ∈ res.2))]

/-- The position record stored for the node at index `j` of the layer at index
`i` holding `k` nodes (lines 144-164). -/
def mkNodePosition (cw : ℚ) (k : ℚ) (i : Nat) (j : Nat) : NodePosition :=
  let layer_y : ℚ := (margin + 150) + (i : ℚ) * layer_spacing
  let x : ℚ := (cw - k * node_spacing) / 2 + (j : ℚ) * node_spacing
  { x := x, y := layer_y, width := DEFAULT_NODE_WIDTH, height := DEFAULT_NODE_HEIGHT,
    center_x := x + DEFAULT_NODE_WIDTH / 2, center_y := layer_y + DEFAULT_NODE_HEIGHT / 2 }

/-- The `for node_idx, node in enumerate(layer_nodes)` loop of
`calculate_layout` (lines 149-164), with `j` the running `node_idx`. -/
def place_layer_nodes (cw : ℚ) (k : ℚ) (i : Nat) :
    Nat → List Node → Dict NodePosition → Dict NodePosition
  | _, [], pos => pos
  | j, n :: rest, pos =>
      place_layer_nodes cw k i (j + 1) rest (dset pos n.id (mkNodePosition cw k i j))

/-- The `for layer_idx, layer_nodes in enumerate(layers)` loop of
`calculate_layout` (lines 144-164), with `i` the running `layer_idx`. -/
def place_layers (cw : ℚ) :
    Nat → List (List Node) → Dict NodePosition → Dict NodePosition
  | _, [], pos => pos
  | i, layer :: rest, pos =>
      place_layers cw (i + 1) rest
        (place_layer_nodes cw (layer.length : ℚ) i 0 layer pos)

/-- `LayoutEngine.calculate_layout` (lines 127-167), parameterised by the
configurable canvas width (default 2000). -/
def calculate_layout (cw : ℚ) (nodes : List Node) (edges : List Edge) :
    Dict NodePosition :=
  let graph := build_graph nodes edges
  let layers := calculate_layers graph nodes
  place_layers cw 0 layers []

/-- `LayoutEngine.get_edge_points` (lines 215-227): the degenerate
origin-origin pair when either endpoint has no stored position, otherwise the
source's bottom-centre followed by the target's top-centre. -/
def get_edge_points (positions : Dict NodePosition) (source_id target_id : String) :
    List (ℚ × ℚ) :=
  match dget positions source_id, dget positions target_id with
  | some sp, some tp =>
      [(sp.center_x, sp.y + sp.height), (tp.center_x, tp.y)]
  | _, _ => [(0, 0), (0, 0)]

/-- One output primitive (`VisualElement`).  Constant cosmetic fields the code
never varies (`roughness`, `opacity`, `angle`, `seed`, `groupIds`, `frameId`,
`roundness`, `boundElements`, `updated`, `link`, `locked`, `lineHeight`,
`textAlign`, `verticalAlign`, `baseline`, `fontFamily`, arrowheads) are not
modelled; every varying field is. -/
structure Element where
  id : String
  type : String
  x : ℚ
  y : ℚ
  width : ℚ
  height : ℚ
  text : Option String
  fontSize : Option ℚ
  strokeColor : String
  backgroundColor : Option String
  strokeWidth : ℚ
  strokeStyle : String
  points : Option (List (ℚ × ℚ))
  deriving DecidableEq

/-- The output document envelope returned by `convert` (lines 288-293). -/
structure ExDoc where
  type : String
  version : Nat
  source : String
  elements : List Element
  deriving DecidableEq

/-- The optional `evolution_tracking` block of the input document. -/
structure Tracking where
  solved_issues : Option (List String)
  new_backlog : Option (List String)
  deriving DecidableEq

/-- A well-formed input document (all required fields present). -/
structure Doc where
  round_id : Option String
  round_title : Option String
  decision_rationale : Option String
  nodes : List Node
  edges : List Edge
  evolution_tracking : Option Tracking
  deriving DecidableEq

/-- `ArchitectureToExcalidraw._generate_id` (lines 240-243): bump the counter,
then format `element_{counter}`. -/
def generate_id (c : Nat) : String × Nat :=
  ("element_" ++ Nat.repr (c + 1), c + 1)

/-- `ArchitectureToExcalidraw._create_title` (lines 295-368): the main title
text element and, when a `decision_rationale` is present and non-empty, one
rationale text element. -/
def create_title (doc : Doc) (c : Nat) : List Element × Nat :=
  let r1 := generate_id c
  let title_text :=
    "Round " ++ doc.round_id.getD "?" ++ ": " ++ doc.round_title.getD "Architecture"
  let title_elem : Element :=
    { id := r1.1, type := "text", x := 50, y := 20, width := 600, height := 40,
      text := some title_text, fontSize := some 24, strokeColor := "#1e1e1e",
      backgroundColor := none, strokeWidth := 2, strokeStyle := "solid", points := none }
  match doc.decision_rationale with
  | some rat =>
      if rat = "" then ([title_elem], r1.2)
      else
        let r2 := generate_id r1.2
        ([title_elem,
          { id := r2.1, type := "text", x := 50, y := 70, width := 800, height := 30,
            text := some ("💡 " ++ rat), fontSize := some 14, strokeColor := "#495057",
            backgroundColor := none, strokeWidth := 2, strokeStyle := "solid",
            points := none }], r2.2)
  | none => ([title_elem], r1.2)

/-- The alert loop of `_create_node` (lines 479-513): one warning text element
per alert, stacked with an 18-unit vertical increment, each id carrying a
fresh counter id as suffix. -/
def create_alerts (node_id : String) (p : NodePosition) :
    List String → ℚ → Nat → List Element × Nat
  | [], _, c => ([], c)
  | a :: rest, alert_y, c =>
      let r := generate_id c
      let e : Element :=
        { id := "alert_" ++ node_id ++ "_" ++ r.1, type := "text",
          x := p.x + 10, y := alert_y, width := p.width - 20, height := 15,
          text := some ("⚠️ " ++ a), fontSize := some 11, strokeColor := "#c92a2a",
          backgroundColor := none, strokeWidth := 2, strokeStyle := "solid",
          points := none }
      let res := create_alerts node_id p rest (alert_y + 18) r.2
      (e :: res.1, res.2)

/-- `ArchitectureToExcalidraw._create_node` (lines 370-515): shape, label,
optional tech-stack text (skipped when absent or empty, per Python
truthiness), and one alert text per alert entry. -/
def create_node (n : Node) (p : NodePosition) (c : Nat) : List Element × Nat :=
  let node_type := n.type.getD "service"
  let node_status := n.status.getD "stable"
  let shape_type := (dget TYPE_TO_SHAPE node_type).getD "rectangle"
  let colors := (dget STATUS_TO_COLOR node_status).getD ⟨"#868e96", "#e9ecef"⟩
  let icon := (dget TYPE_TO_ICON node_type).getD "⚙️"
  let shape_elem : Element :=
    { id := "shape_" ++ n.id, type := shape_type, x := p.x, y := p.y,
      width := p.width, height := p.height, text := none, fontSize := none,
      strokeColor := colors.stroke, backgroundColor := some colors.fill,
      strokeWidth := 2, strokeStyle := "solid", points := none }
  let label_elem : Element :=
    { id := "label_" ++ n.id, type := "text", x := p.x + 10, y := p.y + 15,
      width := p.width - 20, height := 25,
      text := some (icon ++ " " ++ n.label.getD n.id), fontSize := some 16,
      strokeColor := "#1e1e1e", backgroundColor := none, strokeWidth := 2,
      strokeStyle := "solid", points := none }
  let tech_elems : List Element :=
    match n.tech_stack with
    | some ts =>
        if ts = "" then []
        else
          [{ id := "tech_" ++ n.id, type := "text", x := p.x + 10, y := p.y + 45,
             width := p.width - 20, height := 20, text := some ts,
             fontSize := some 12, strokeColor := "#495057", backgroundColor := none,
             strokeWidth := 2, strokeStyle := "solid", points := none }]
    | none => []
  let alerts := create_alerts n.id p n.alerts (p.y + 70) c
  (shape_elem :: label_elem :: tech_elems ++ alerts.1, alerts.2)

/-- `ArchitectureToExcalidraw._create_edge` (lines 517-610): skip when the
edge-point query returns the sentinel pair, otherwise one arrow element plus,
for a non-empty label, one centred label text element. -/
def create_edge (positions : Dict NodePosition) (e : Edge) : List Element :=
  let interaction := e.interaction.getD "sync"
  let points := get_edge_points positions e.source e.target
  if points = [] ∨ points = [(0, 0), (0, 0)] then []
  else
    let stroke := (dget INTERACTION_TO_STROKE interaction).getD ⟨"solid", 2⟩
    match points with
    | (start_x, start_y) :: (end_x, end_y) :: _ =>
        let arrow : Element :=
          { id := "edge_" ++ e.source ++ "_" ++ e.target, type := "arrow",
            x := start_x, y := start_y, width := |end_x - start_x|,
            height := |end_y - start_y|, text := none, fontSize := none,
            strokeColor := "#1e1e1e", backgroundColor := none,
            strokeWidth := stroke.width, strokeStyle := stroke.style,
            points := some [(0, 0), (end_x - start_x, end_y - start_y)] }
        let label_elems : List Element :=
          match e.label with
          | some l =>
              if l = "" then []
              else
                [{ id := "edge_label_" ++ e.source ++ "_" ++ e.target, type := "text",
                   x := (start_x + end_x) / 2 - 50, y := (start_y + end_y) / 2 - 10,
                   width := 100, height := 20, text := some l, fontSize := some 12,
                   strokeColor := "#495057", backgroundColor := some "#ffffff",
                   strokeWidth := 1, strokeStyle := "solid", points := none }]
          | none => []
        arrow :: label_elems
    | _ => []

/-- One bulleted issue line of the evolution-tracking panel
(lines 657-689 and 727-760). -/
def create_issue_lines (tracking_x : ℚ) (color : String) :
    List String → ℚ → Nat → List Element × Nat
  | [], _, c => ([], c)
  | issue :: rest, y_offset, c =>
      let r := generate_id c
      let e : Element :=
        { id := r.1, type := "text", x := tracking_x + 20, y := y_offset,
          width := 280, height := 20, text := some ("• " ++ issue),
          fontSize := some 12, strokeColor := color, backgroundColor := none,
          strokeWidth := 2, strokeStyle := "solid", points := none }
      let res := create_issue_lines tracking_x color rest (y_offset + 25) r.2
      (e :: res.1, res.2)

/-- `ArchitectureToExcalidraw._create_evolution_tracking` (lines 612-762):
panel to the right of the rightmost node; a solved-issues section when that
list is present and non-empty, then a backlog section, offset 150 further
down when a solved-issues section was rendered. -/
def create_evolution_tracking (tracking : Tracking)
    (positions : Dict NodePosition) (c : Nat) : List Element × Nat :=
  let max_x : ℚ :=
    match positions.map (fun kv => kv.2.x + kv.2.width) with
    | [] => 1000
    | v :: vs => vs.foldl max v
  let tracking_x := max_x + 50
  let tracking_y : ℚ := 200
  let solved := tracking.solved_issues.getD []
  let solved_part : List Element × Nat :=
    if solved = [] then ([], c)
    else
      let r := generate_id c
      let title : Element :=
        { id := r.1, type := "text", x := tracking_x, y := tracking_y,
          width := 300, height := 25, text := some "✅ 已解决问题:",
          fontSize := some 14, strokeColor := "#2f9e44", backgroundColor := none,
          strokeWidth := 2, strokeStyle := "solid", points := none }
      let lines := create_issue_lines tracking_x "#495057" solved (tracking_y + 30) r.2
      (title :: lines.1, lines.2)
  let backlog := tracking.new_backlog.getD []
  let backlog_part : List Element × Nat :=
    if backlog = [] then ([], solved_part.2)
    else
      let backlog_y := if solved = [] then tracking_y else tracking_y + 150
      let r := generate_id solved_part.2
      let title : Element :=
        { id := r.1, type := "text", x := tracking_x, y := backlog_y,
          width := 300, height := 25, text := some "⚠️ 新发现问题:",
          fontSize := some 14, strokeColor := "#f59f00", backgroundColor := none,
          strokeWidth := 2, strokeStyle := "solid", points := none }
      let lines := create_issue_lines tracking_x "#c92a2a" backlog (backlog_y + 30) r.2
      (title :: lines.1, lines.2)
  (solved_part.1 ++ backlog_part.1, backlog_part.2)

/-- Placeholder position consulted only if a node had no computed position;
`positions_total` below proves the layout covers every node, so this default
is never read (the Python code would raise `AttributeError` on `None` there,
which is unreachable for the same reason). -/
def unreachablePosition : NodePosition := ⟨0, 0, 0, 0, 0, 0⟩

/-- The node loop of `convert` (lines 267-269), threading the id counter. -/
def convert_nodes (positions : Dict NodePosition) :
    List Node → Nat → List Element × Nat
  | [], c => ([], c)
  | n :: rest, c =>
      let r := create_node n ((dget positions n.id).getD unreachablePosition) c
      let res := convert_nodes positions rest r.2
      (r.1 ++ res.1, res.2)

/-- The edge loop of `convert` (lines 272-278). -/
def convert_edges (positions : Dict NodePosition) (edges : List Edge) :
    List Element :=
  edges.foldl (fun acc e => acc ++ create_edge positions e) []

/-- The full ordered element list assembled by `convert` (lines 255-286). -/
def convert_elements (doc : Doc) : List Element :=
  let title := create_title doc 0
  let positions := calculate_layout 2000 doc.nodes doc.edges
  let nodesEls := convert_nodes positions doc.nodes title.2
  let edgeEls := convert_edges positions doc.edges
  let trackEls :=
    match doc.evolution_tracking with
    | some tr => (create_evolution_tracking tr positions nodesEls.2).1
    | none => []
  title.1 ++ nodesEls.1 ++ edgeEls ++ trackEls

/-- `ArchitectureToExcalidraw.convert` (lines 245-293). -/
def convert (doc : Doc) : ExDoc :=
  { type := "excalidraw", version := 2, source := "https://excalidraw.com",
    elements := convert_elements doc }

/-- A raw input node record, before the `node["id"]` accesses that can raise
`KeyError` (line 171). -/
structure RawNode where
  id : Option String
  label : Option String
  type : Option String
  status : Option String
  tech_stack : Option String
  alerts : List String
  deriving DecidableEq

/-- A raw input edge record, before the `edge["source"]` / `edge["target"]`
accesses that can raise `KeyError` (lines 173-174, 519-520). -/
structure RawEdge where
  source : Option String
  target : Option String
  interaction : Option String
  label : Option String
  deriving DecidableEq

/-- A raw input document. -/
structure RawDoc where
  round_id : Option String
  round_title : Option String
  decision_rationale : Option String
  nodes : List RawNode
  edges : List RawEdge
  evolution_tracking : Option Tracking
  deriving DecidableEq

/-- The `node["id"]` accesses of `_build_graph`'s dict comprehension
(line 171), in input order: the first node without an id raises
`KeyError: id`, modelled as `Except.error "id"`. -/
def read_nodes : List RawNode → Except String (List Node)
  | [] => Except.ok []
  | rn :: rest =>
      match rn.id with
      | none => Except.error "id"
      | some i =>
          match read_nodes rest with
          | Except.ok ns =>
              Except.ok (⟨i, rn.label, rn.type, rn.status, rn.tech_stack, rn.alerts⟩ :: ns)
          | Except.error e => Except.error e

/-- The `edge["source"]` / `edge["target"]` accesses of `_build_graph`
(lines 173-174), in input order, source before target. -/
def read_edges : List RawEdge → Except String (List Edge)
  | [] => Except.ok []
  | re :: rest =>
      match re.source with
      | none => Except.error "source"
      | some s =>
          match re.target with
          | none => Except.error "target"
          | some t =>
              match read_edges rest with
              | Except.ok es => Except.ok (⟨s, t, re.interaction, re.label⟩ :: es)
              | Except.error e => Except.error e

/-- `convert` on a raw document: the field accesses of `_build_graph` are the
first (and only) point where a missing required field raises; afterwards
every access is of an already-validated field, so the conversion runs to
completion. -/
def convertE (doc : RawDoc) : Except String ExDoc :=
  match read_nodes doc.nodes with
  | Except.error e => Except.error e
  | Except.ok nodes =>
      match read_edges doc.edges with
      | Except.error e => Except.error e
      | Except.ok edges =>
          Except.ok (convert
            { round_id := doc.round_id, round_title := doc.round_title,
              decision_rationale := doc.decision_rationale, nodes := nodes,
              edges := edges, evolution_tracking := doc.evolution_tracking })

/-! ### Dictionary lemmas -/

theorem dget_nil {α : Type} (k : String) : dget ([] : Dict α) k = none := rfl

theorem dget_cons {α : Type} (k' : String) (v' : α) (d : Dict α) (k : String) :
    dget ((k', v') :: d) k = if k' = k then some v' else dget d k := by
  by_cases h : k' = k
  · simp [dget, List.find?_cons_of_pos, h]
  · have hb : ((k', v').1 == k) = false := by simpa using h
    simp [dget, List.find?_cons_of_neg, hb, h]

theorem dget_dset_self {α : Type} (d : Dict α) (k : String) (v : α) :
    dget (dset d k v) k = some v := by
  induction d with
  | nil => simp [dset, dget_cons]
  | cons kv rest ih =>
      obtain ⟨k', v'⟩ := kv
      by_cases h : k' = k
      · simp [dset, h, dget_cons]
      · simp [dset, h, dget_cons, ih]

theorem dget_dset_ne {α : Type} (d : Dict α) (k k' : String) (v : α)
    (h : k' ≠ k) : dget (dset d k v) k' = dget d k' := by
  induction d with
  | nil =>
      show dget [(k, v)] k' = dget [] k'
      rw [dget_cons, if_neg (fun hh => h hh.symm)]
  | cons kv rest ih =>
      obtain ⟨k₀, v₀⟩ := kv
      by_cases h₀ : k₀ = k
      · subst h₀
        have hd : dset ((k₀, v₀) :: rest) k₀ v = (k₀, v) :: rest := by simp [dset]
        rw [hd, dget_cons, dget_cons, if_neg (fun hh => h hh.symm),
          if_neg (fun hh => h hh.symm)]
      · simp [dset, h₀, dget_cons, ih]

theorem dget_dset {α : Type} (d : Dict α) (k k' : String) (v : α) :
    dget (dset d k v) k' = if k = k' then some v else dget d k' := by
  by_cases h : k = k'
  · subst h; simp [dget_dset_self]
  · simp [h, dget_dset_ne d k k' v (fun hh => h hh.symm)]

/-! ### Characterisation of the adjacency table (`_build_graph`) -/

/-- The edge-fold step of `build_graph`. -/
def addEdgeStep (g : Dict (List String)) (e : Edge) : Dict (List String) :=
  match dget g e.source with
  | some ts => dset g e.source (ts ++ [e.target])
  | none => g

theorem build_graph_eq_foldl (nodes : List Node) (edges : List Edge) :
    build_graph nodes edges =
      edges.foldl addEdgeStep (nodes.foldl (fun g n => dset g n.id []) []) := rfl

theorem dget_init_graph (nodes : List Node) (g : Dict (List String)) (k : String) :
    dget (nodes.foldl (fun g n => dset g n.id []) g) k =
      if k ∈ nodes.map (fun n => n.id) then some [] else dget g k := by
  induction nodes generalizing g with
  | nil => simp
  | cons n rest ih =>
      simp only [List.foldl_cons, ih, List.map_cons, List.mem_cons]
      by_cases h : k ∈ rest.map (fun n => n.id)
      · simp [h]
      · by_cases h2 : k = n.id
        · simp [h, h2, dget_dset_self]
        · simp [h, h2, dget_dset_ne _ _ _ _ h2, fun hh : n.id = k => h2 hh.symm]

theorem dget_addEdge_foldl (edges : List Edge) (g : Dict (List String)) (k : String) :
    dget (edges.foldl addEdgeStep g) k =
      (dget g k).map
        (fun ts => ts ++ (edges.filter (fun e => e.source == k)).map (fun e => e.target)) := by
  induction edges generalizing g with
  | nil => cases hg : dget g k <;> simp [hg]
  | cons e rest ih =>
      simp only [List.foldl_cons, ih, List.filter_cons]
      by_cases hs : e.source = k
      · subst hs
        cases hg : dget g e.source with
        | none => simp [addEdgeStep, hg]
        | some ts => simp [addEdgeStep, hg, dget_dset_self]
      · have hb : (e.source == k) = false := by simpa using hs
        cases hg : dget g e.source with
        | none => simp [addEdgeStep, hg, hb]
        | some ts => simp [addEdgeStep, hg, hb, dget_dset_ne _ _ _ _ fun hh => hs hh.symm]

/-- The adjacency list of a node id is exactly the targets of the edges whose
source equals it, in input order; ids outside the node list have no entry. -/
theorem dget_build_graph (nodes : List Node) (edges : List Edge) (k : String) :
    dget (build_graph nodes edges) k =
      if k ∈ nodes.map (fun n => n.id) then
        some ((edges.filter (fun e => e.source == k)).map (fun e => e.target))
      else none := by
  rw [build_graph_eq_foldl, dget_addEdge_foldl, dget_init_graph]
  by_cases h : k ∈ nodes.map (fun n => n.id) <;> simp [h, dget_nil]

/-! ### Characterisation of the in-degree table (`_calculate_layers`, lines 185-188) -/

theorem dget_init_deg (nodes : List Node) (d : Dict Int) (k : String) :
    dget (nodes.foldl (fun d n => dset d n.id 0) d) k =
      if k ∈ nodes.map (fun n => n.id) then some 0 else dget d k := by
  induction nodes generalizing d with
  | nil => simp
  | cons n rest ih =>
      simp only [List.foldl_cons, ih, List.map_cons, List.mem_cons]
      by_cases h : k ∈ rest.map (fun n => n.id)
      · simp [h]
      · by_cases h2 : k = n.id
        · simp [h, h2, dget_dset_self]
        · simp [h, h2, dget_dset_ne _ _ _ _ h2, fun hh : n.id = k => h2 hh.symm]

theorem degOf_bump_foldl (ts : List String) (d : Dict Int) (k : String) :
    degOf (ts.foldl (fun d t => dset d t (degOf d t + 1)) d) k =
      degOf d k + (ts.count k : Int) := by
  induction ts generalizing d with
  | nil => simp
  | cons t rest ih =>
      simp only [List.foldl_cons, ih, List.count_cons]
      by_cases h : t = k
      · subst h
        simp [degOf, dget_dset_self]
        ring
      · have hb : (k == t) = false := by simpa using fun hh : k = t => h hh.symm
        simp [degOf, dget_dset_ne _ _ _ _ (fun hh : k = t => h hh.symm), hb, h]

theorem degOf_adj_foldl (graph : Dict (List String)) (l : List Node)
    (d : Dict Int) (k : String) :
    degOf (l.foldl
        (fun d n =>
          ((dget graph n.id).getD []).foldl (fun d t => dset d t (degOf d t + 1)) d)
        d) k =
      degOf d k + ((l.map (fun n => ((dget graph n.id).getD []).count k)).sum : Int) := by
  induction l generalizing d with
  | nil => simp
  | cons n rest ih =>
      simp only [List.foldl_cons, ih, degOf_bump_foldl, List.map_cons, List.sum_cons]
      push_cast
      ring

theorem length_filter_disjoint_or {α : Type} (p q : α → Bool) (l : List α)
    (h : ∀ a ∈ l, ¬(p a = true ∧ q a = true)) :
    (l.filter p).length + (l.filter q).length
      = (l.filter (fun a => p a || q a)).length := by
  induction l with
  | nil => simp
  | cons a rest ih =>
      have hrest := ih (fun x hx => h x (List.mem_cons_of_mem a hx))
      have ha := h a (List.mem_cons_self a rest)
      by_cases hp : p a = true
      · have hq : q a = false := by
          cases hqq : q a
          · rfl
          · exact absurd ⟨hp, hqq⟩ ha
        simp [List.filter_cons, hp, hq, ← hrest]
        omega
      · have hp' : p a = false := by simpa using hp
        by_cases hq : q a = true
        · simp [List.filter_cons, hp', hq, ← hrest]
          omega
        · have hq' : q a = false := by simpa using hq
          simp [List.filter_cons, hp', hq', ← hrest]

/-- In-degree of any id: the number of edges with that target whose source is
a known node id.  (Edges with an unknown source are not counted: they never
entered the adjacency table.) -/
theorem degOf_init_in_degree (nodes : List Node) (edges : List Edge) (t : String)
    (hn : (nodes.map (fun n => n.id)).Nodup) :
    degOf (init_in_degree (build_graph nodes edges) nodes) t =
      ((edges.filter
        (fun e => e.target == t && decide (e.source ∈ nodes.map (fun n => n.id)))).length : Int) := by
  have hzero : degOf (nodes.foldl (fun d n => dset d n.id 0) []) t = 0 := by
    unfold degOf
    rw [dget_init_deg]
    by_cases h : t ∈ nodes.map (fun n => n.id) <;> simp [h, dget_nil]
  unfold init_in_degree
  rw [degOf_adj_foldl, hzero, Int.zero_add]
  congr 1
  -- reduce to a Nat identity about filter lengths
  have main : ∀ (l : List Node), (l.map (fun n => n.id)).Nodup →
      (∀ n ∈ l, n.id ∈ nodes.map (fun m => m.id)) →
      (l.map (fun n => ((dget (build_graph nodes edges) n.id).getD []).count t)).sum =
        (edges.filter
          (fun e => e.target == t && decide (e.source ∈ l.map (fun n => n.id)))).length := by
    intro l hl hsub
    induction l with
    | nil => simp
    | cons n rest ih =>
        simp only [List.map_cons, List.nodup_cons, List.mem_map] at hl
        have hrest := ih hl.2 (fun m hm => hsub m (List.mem_cons_of_mem n hm))
        have hmem : n.id ∈ nodes.map (fun m => m.id) :=
          hsub n (List.mem_cons_self n rest)
        have hadj : (dget (build_graph nodes edges) n.id).getD [] =
            (edges.filter (fun e => e.source == n.id)).map (fun e => e.target) := by
          rw [dget_build_graph]
          simp [hmem]
        have hcount : ((edges.filter (fun e => e.source == n.id)).map
              (fun e => e.target)).count t =
            (edges.filter (fun e => e.source == n.id && e.target == t)).length := by
          rw [List.count_eq_countP, List.countP_map, List.countP_eq_length_filter,
            List.filter_filter]
          congr 1
          apply List.filter_congr
          intro e _
          simp [Function.comp, Bool.and_comm]
        simp only [List.map_cons, List.sum_cons, hadj, hcount, hrest]
        rw [length_filter_disjoint_or]
        · congr 1
          apply List.filter_congr
          intro e _
          by_cases h1 : e.source = n.id <;> by_cases h2 : e.target = t <;>
            by_cases h3 : e.source ∈ rest.map (fun n => n.id) <;>
            simp [h1, h2, h3]
        · intro e _
          rintro ⟨h1, h2⟩
          simp only [Bool.and_eq_true, beq_iff_eq, decide_eq_true_eq] at h1 h2
          obtain ⟨a, ha, hae⟩ := List.mem_map.mp h2.2
          exact hl.1 ⟨a, ha, hae.trans h1.1⟩
  exact main nodes hn (fun n hn' => List.mem_map_of_mem (fun m => m.id) hn')

/-! ### The layering loop: invariants -/

theorem degOf_dset (d : Dict Int) (k k' : String) (v : Int) :
    degOf (dset d k v) k' = if k = k' then v else degOf d k' := by
  unfold degOf
  rw [dget_dset]
  by_cases h : k = k' <;> simp [h]

/-- Invariant threaded through the target-processing fold: the pending
current-layer nodes and the already-collected next-layer nodes all have
non-positive in-degree, next-layer nodes are still unplaced (in `remaining`),
distinct, drawn from the input node list, and not pending. -/
def TInv (nodes pending : List Node)
    (st : Dict Int × List String × List Node) : Prop :=
  (∀ n ∈ pending, degOf st.1 n.id ≤ 0) ∧
  (∀ m ∈ st.2.2, m.id ∈ st.2.1 ∧ m.id ∉ pending.map (fun n => n.id) ∧
     degOf st.1 m.id ≤ 0 ∧ m ∈ nodes) ∧
  st.2.1.Nodup ∧ (st.2.2.map (fun n => n.id)).Nodup

theorem process_targets_rem (nodes : List Node) (ts : List String)
    (st : Dict Int × List String × List Node) :
    (process_targets nodes ts st).2.1 = st.2.1 := by
  induction ts generalizing st with
  | nil => rfl
  | cons t rest ih =>
      obtain ⟨deg, rem, nl⟩ := st
      simp only [process_targets]
      by_cases h : degOf (dset deg t (degOf deg t - 1)) t = 0 ∧ t ∈ rem <;>
        simp [h, ih]

theorem process_targets_inv (nodes pending : List Node) (ts : List String)
    (st : Dict Int × List String × List Node) (h : TInv nodes pending st) :
    TInv nodes pending (process_targets nodes ts st) := by
  induction ts generalizing st with
  | nil => exact h
  | cons t rest ih =>
      obtain ⟨deg, rem, nl⟩ := st
      obtain ⟨hpend, hnl, hrem, hnodup⟩ := h
      dsimp only at hpend hnl hrem hnodup
      simp only [process_targets]
      have hdec : ∀ k, degOf (dset deg t (degOf deg t - 1)) k ≤ degOf deg k := by
        intro k
        rw [degOf_dset]
        by_cases hk : t = k
        · subst hk; omega
        · simp [hk]
      by_cases hc : degOf (dset deg t (degOf deg t - 1)) t = 0 ∧ t ∈ rem
      · -- the target joins the next layer
        rw [if_pos hc]
        apply ih
        have ht1 : degOf deg t = 1 := by
          have h0 := hc.1
          rw [degOf_dset, if_pos rfl] at h0
          omega
        have htp : t ∉ pending.map (fun n => n.id) := by
          intro hmem
          obtain ⟨n, hn, hni⟩ := List.mem_map.mp hmem
          have h0 := hpend n hn
          rw [hni, ht1] at h0
          omega
        have htnl : t ∉ nl.map (fun n => n.id) := by
          intro hmem
          obtain ⟨m, hm, hmi⟩ := List.mem_map.mp hmem
          have h0 := (hnl m hm).2.2.1
          rw [hmi, ht1] at h0
          omega
        refine ⟨fun n hn => le_trans (hdec n.id) (hpend n hn), ?_, hrem, ?_⟩
        · intro m hm
          dsimp only at hm
          rcases List.mem_append.mp hm with hm' | hm'
          · obtain ⟨h1, h2, h3, h4⟩ := hnl m hm'
            exact ⟨h1, h2, le_trans (hdec m.id) h3, h4⟩
          · cases hf : nodes.find? (fun n => n.id == t) with
            | none => rw [hf] at hm'; simp at hm'
            | some m' =>
                rw [hf] at hm'
                simp only [Option.toList_some, List.mem_singleton] at hm'
                subst hm'
                have hmid : m.id = t := by
                  have h0 := List.find?_some hf
                  simpa using h0
                refine ⟨?_, ?_, ?_, List.mem_of_find?_eq_some hf⟩
                · rw [hmid]; exact hc.2
                · rw [hmid]; exact htp
                · rw [hmid, degOf_dset, if_pos rfl]; omega
        · dsimp only
          rw [List.map_append, List.nodup_append]
          refine ⟨hnodup, ?_, ?_⟩
          · cases hf : nodes.find? (fun n => n.id == t) with
            | none => simp
            | some m' =>
                have hmid : m'.id = t := by
                  have h0 := List.find?_some hf
                  simpa using h0
                simp [hmid]
          · intro x hx hy
            cases hf : nodes.find? (fun n => n.id == t) with
            | none => rw [hf] at hy; simp at hy
            | some m' =>
                rw [hf] at hy
                have hmid : m'.id = t := by
                  have h0 := List.find?_some hf
                  simpa using h0
                simp only [Option.toList_some, List.map_cons, List.map_nil,
                  List.mem_singleton] at hy
                subst hy
                rw [hmid] at hx
                exact htnl hx
      · rw [if_neg hc]
        apply ih
        refine ⟨fun n hn => le_trans (hdec n.id) (hpend n hn), ?_, hrem, hnodup⟩
        intro m hm
        obtain ⟨h1, h2, h3, h4⟩ := hnl m hm
        exact ⟨h1, h2, le_trans (hdec m.id) h3, h4⟩

theorem process_layer_nodes_rem (graph : Dict (List String)) (nodes cur : List Node)
    (st : Dict Int × List String × List Node) :
    (process_layer_nodes graph nodes cur st).2.1 =
      cur.foldl (fun r n => r.erase n.id) st.2.1 := by
  induction cur generalizing st with
  | nil => rfl
  | cons n rest ih =>
      obtain ⟨deg, rem, nl⟩ := st
      simp only [process_layer_nodes, List.foldl_cons, ih, process_targets_rem]

theorem process_layer_nodes_inv (graph : Dict (List String)) (nodes cur : List Node)
    (st : Dict Int × List String × List Node) (h : TInv nodes cur st) :
    TInv nodes [] (process_layer_nodes graph nodes cur st) := by
  induction cur generalizing st with
  | nil =>
      obtain ⟨hpend, hnl, hrem, hnodup⟩ := h
      exact ⟨by simp, fun m hm => ⟨(hnl m hm).1, by simp, (hnl m hm).2.2⟩, hrem, hnodup⟩
  | cons n rest ih =>
      obtain ⟨deg, rem, nl⟩ := st
      obtain ⟨hpend, hnl, hrem, hnodup⟩ := h
      dsimp only at hpend hnl hrem hnodup
      simp only [process_layer_nodes]
      apply ih
      apply process_targets_inv
      refine ⟨fun m hm => hpend m (List.mem_cons_of_mem n hm), ?_, hrem.erase n.id, hnodup⟩
      intro m hm
      obtain ⟨h1, h2, h3, h4⟩ := hnl m hm
      have hne : m.id ≠ n.id := by
        intro he
        exact h2 (by simp [he])
      refine ⟨(List.mem_erase_of_ne hne).mpr h1, ?_, h3, h4⟩
      intro hx
      exact h2 (by simp only [List.map_cons, List.mem_cons]; exact Or.inr hx)

/-! ### The remaining set under one layer of discards -/

theorem mem_erase_fold_of_not_mem (cur : List Node) (rem : List String) (x : String)
    (hx : x ∈ rem) (hni : x ∉ cur.map (fun n => n.id)) :
    x ∈ cur.foldl (fun r n => r.erase n.id) rem := by
  induction cur generalizing rem with
  | nil => exact hx
  | cons n rest ih =>
      simp only [List.map_cons, List.mem_cons, not_or] at hni
      exact ih _ ((List.mem_erase_of_ne hni.1).mpr hx) hni.2

theorem mem_of_mem_erase_fold (cur : List Node) (rem : List String) (x : String)
    (hx : x ∈ cur.foldl (fun r n => r.erase n.id) rem) : x ∈ rem := by
  induction cur generalizing rem with
  | nil => exact hx
  | cons n rest ih => exact List.mem_of_mem_erase (ih _ hx)

theorem erase_fold_nodup (cur : List Node) (rem : List String) (h : rem.Nodup) :
    (cur.foldl (fun r n => r.erase n.id) rem).Nodup := by
  induction cur generalizing rem with
  | nil => exact h
  | cons n rest ih => exact ih _ (h.erase n.id)

theorem mem_erase_fold_iff (cur : List Node) (rem : List String) (x : String)
    (h : rem.Nodup) :
    x ∈ cur.foldl (fun r n => r.erase n.id) rem ↔
      x ∈ rem ∧ x ∉ cur.map (fun n => n.id) := by
  induction cur generalizing rem with
  | nil => simp
  | cons n rest ih =>
      simp only [List.foldl_cons, ih _ (h.erase n.id), h.mem_erase_iff,
        List.map_cons, List.mem_cons, not_or]
      tauto

theorem erase_fold_length_le (cur : List Node) (rem : List String) :
    (cur.foldl (fun r n => r.erase n.id) rem).length ≤ rem.length := by
  induction cur generalizing rem with
  | nil => exact le_refl _
  | cons n rest ih =>
      exact le_trans (ih (rem.erase n.id)) (List.length_erase_le _ _)

theorem erase_fold_length_lt (cur : List Node) (rem : List String)
    (h : ∃ n ∈ cur, n.id ∈ rem) :
    (cur.foldl (fun r n => r.erase n.id) rem).length < rem.length := by
  induction cur generalizing rem with
  | nil => simp at h
  | cons n rest ih =>
      obtain ⟨m, hm, hmem⟩ := h
      rcases List.mem_cons.mp hm with rfl | hm'
      · calc (rest.foldl (fun r n => r.erase n.id) (rem.erase m.id)).length
            ≤ (rem.erase m.id).length := erase_fold_length_le rest _
          _ < rem.length := by
              rw [List.length_erase_of_mem hmem]
              have : rem.length ≠ 0 := by
                intro h0
                rw [List.length_eq_zero] at h0
                subst h0
                simp at hmem
              omega
      · by_cases hn : m.id ∈ rem.erase n.id
        · exact lt_of_lt_of_le (ih _ ⟨m, hm', hn⟩) (List.length_erase_le _ _)
        · by_cases hnn : n.id ∈ rem
          · calc (rest.foldl (fun r n => r.erase n.id) (rem.erase n.id)).length
                ≤ (rem.erase n.id).length := erase_fold_length_le rest _
              _ < rem.length := by
                  rw [List.length_erase_of_mem hnn]
                  have : rem.length ≠ 0 := by
                    intro h0
                    rw [List.length_eq_zero] at h0
                    subst h0
                    simp at hnn
                  omega
          · rw [List.erase_of_not_mem hnn] at hn
            exact absurd hmem hn

/-! ### The while loop (`layers_loop`) -/

/-- Invariant at the head of each `while current_layer` iteration. -/
def LInv (nodes cur : List Node) (deg : Dict Int) (rem : List String) : Prop :=
  rem.Nodup ∧ (cur.map (fun n => n.id)).Nodup ∧
  ∀ n ∈ cur, degOf deg n.id ≤ 0 ∧ n.id ∈ rem ∧ n ∈ nodes

theorem LInv_to_TInv (nodes cur : List Node) (deg : Dict Int) (rem : List String)
    (h : LInv nodes cur deg rem) : TInv nodes cur (deg, rem, []) := by
  obtain ⟨h1, h2, h3⟩ := h
  exact ⟨fun n hn => (h3 n hn).1, by simp, h1, by simp⟩

theorem LInv_next (graph : Dict (List String)) (nodes cur : List Node)
    (deg : Dict Int) (rem : List String) (h : LInv nodes cur deg rem) :
    LInv nodes (process_layer_nodes graph nodes cur (deg, rem, [])).2.2
      (process_layer_nodes graph nodes cur (deg, rem, [])).1
      (process_layer_nodes graph nodes cur (deg, rem, [])).2.1 := by
  have hT := process_layer_nodes_inv graph nodes cur _ (LInv_to_TInv nodes cur deg rem h)
  obtain ⟨_, hnl, hrem, hnodup⟩ := hT
  exact ⟨hrem, hnodup, fun n hn =>
    ⟨(hnl n hn).2.2.1, (hnl n hn).1, (hnl n hn).2.2.2⟩⟩

/-- With enough fuel (more than the size of `remaining`) the fuelled loop is
insensitive to the exact amount: the Python `while` loop always terminates
within that bound. -/
theorem layers_loop_fuel_stable (graph : Dict (List String)) (nodes : List Node) :
    ∀ (fuel fuel' : Nat) (cur : List Node) (deg : Dict Int) (rem : List String),
      LInv nodes cur deg rem → rem.length < fuel → rem.length < fuel' →
      layers_loop graph nodes fuel cur deg rem =
        layers_loop graph nodes fuel' cur deg rem := by
  intro fuel
  induction fuel with
  | zero => intro fuel' cur deg rem _ h; omega
  | succ f ih =>
      intro fuel' cur deg rem hInv hf hf'
      cases fuel' with
      | zero => omega
      | succ f' =>
          cases cur with
          | nil => rfl
          | cons c cs =>
              simp only [layers_loop]
              have hshrink :
                  (process_layer_nodes graph nodes (c :: cs) (deg, rem, [])).2.1.length
                    < rem.length := by
                rw [process_layer_nodes_rem]
                exact erase_fold_length_lt _ _ ⟨c, List.mem_cons_self c cs,
                  (hInv.2.2 c (List.mem_cons_self c cs)).2.1⟩
              have hnext := LInv_next graph nodes (c :: cs) deg rem hInv
              rw [ih f' _ _ _ hnext (by omega) (by omega)]

/-- Structure of the fuelled loop's output: the recorded layers hold distinct,
still-unplaced input nodes, and the final `remaining` is the initial one minus
exactly the recorded ids. -/
theorem layers_loop_partition (graph : Dict (List String)) (nodes : List Node) :
    ∀ (fuel : Nat) (cur : List Node) (deg : Dict Int) (rem : List String),
      LInv nodes cur deg rem → rem.length < fuel →
      ((((layers_loop graph nodes fuel cur deg rem).1.flatten.map (fun n => n.id)).Nodup) ∧
       (∀ x ∈ (layers_loop graph nodes fuel cur deg rem).1.flatten.map (fun n => n.id), x ∈ rem) ∧
       (∀ x, x ∈ (layers_loop graph nodes fuel cur deg rem).2 ↔
          x ∈ rem ∧ x ∉ (layers_loop graph nodes fuel cur deg rem).1.flatten.map (fun n => n.id)) ∧
       (∀ m ∈ (layers_loop graph nodes fuel cur deg rem).1.flatten, m ∈ nodes) ∧
       (layers_loop graph nodes fuel cur deg rem).2.Nodup) := by
  intro fuel
  induction fuel with
  | zero => intro cur deg rem _ h; omega
  | succ f ih =>
      intro cur deg rem hInv hf
      cases cur with
      | nil =>
          simp only [layers_loop, List.flatten_nil, List.map_nil]
          exact ⟨List.nodup_nil, by simp, by simp [hInv.1], by simp, hInv.1⟩
      | cons c cs =>
          simp only [layers_loop]
          set st := process_layer_nodes graph nodes (c :: cs) (deg, rem, []) with hst
          have hshrink : st.2.1.length < rem.length := by
            rw [hst, process_layer_nodes_rem]
            exact erase_fold_length_lt _ _ ⟨c, List.mem_cons_self c cs,
              (hInv.2.2 c (List.mem_cons_self c cs)).2.1⟩
          have hnext := LInv_next graph nodes (c :: cs) deg rem hInv
          have hrec := ih st.2.2 st.1 st.2.1 hnext (by omega)
          set res := layers_loop graph nodes f st.2.2 st.1 st.2.1 with hres
          obtain ⟨r1, r2, r3, r4, r5⟩ := hrec
          have hremmem : ∀ x, x ∈ st.2.1 ↔ x ∈ rem ∧ x ∉ (c :: cs).map (fun n => n.id) := by
            intro x
            rw [hst, process_layer_nodes_rem]
            exact mem_erase_fold_iff (c :: cs) rem x hInv.1
          have hcur_sub : ∀ x ∈ (c :: cs).map (fun n => n.id), x ∈ rem := by
            intro x hx
            obtain ⟨n, hn, hni⟩ := List.mem_map.mp hx
            rw [← hni]
            exact (hInv.2.2 n hn).2.1
          refine ⟨?_, ?_, ?_, ?_, r5⟩
          · simp only [List.flatten_cons, List.map_append, List.nodup_append]
            refine ⟨hInv.2.1, r1, ?_⟩
            intro x hx hx'
            have := (hremmem x).mp (r2 x hx')
            exact this.2 hx
          · intro x hx
            simp only [List.flatten_cons, List.map_append, List.mem_append] at hx
            rcases hx with hx | hx
            · exact hcur_sub x hx
            · exact ((hremmem x).mp (r2 x hx)).1
          · intro x
            rw [r3 x, hremmem x]
            simp only [List.flatten_cons, List.map_append, List.mem_append, not_or]
            tauto
          · intro m hm
            simp only [List.flatten_cons, List.mem_append] at hm
            rcases hm with hm | hm
            · exact (hInv.2.2 m hm).2.2
            · exact r4 m hm

/-- Unconditional coverage: every id in `remaining` either survives to the
final `remaining` or appears in a recorded layer. -/
theorem layers_loop_coverage (graph : Dict (List String)) (nodes : List Node) :
    ∀ (fuel : Nat) (cur : List Node) (deg : Dict Int) (rem : List String) (x : String),
      x ∈ rem →
      x ∈ (layers_loop graph nodes fuel cur deg rem).2 ∨
        x ∈ (layers_loop graph nodes fuel cur deg rem).1.flatten.map (fun n => n.id) := by
  intro fuel
  induction fuel with
  | zero => intro cur deg rem x hx; exact Or.inl hx
  | succ f ih =>
      intro cur deg rem x hx
      cases cur with
      | nil => exact Or.inl hx
      | cons c cs =>
          simp only [layers_loop]
          by_cases hin : x ∈ (c :: cs).map (fun n => n.id)
          · right
            simp only [List.flatten_cons, List.map_append, List.mem_append]
            exact Or.inl hin
          · have hx' : x ∈ (process_layer_nodes graph nodes (c :: cs) (deg, rem, [])).2.1 := by
              rw [process_layer_nodes_rem]
              exact mem_erase_fold_of_not_mem _ _ _ hx hin
            rcases ih _ _ _ x hx' with h | h
            · exact Or.inl h
            · right
              simp only [List.flatten_cons, List.map_append, List.mem_append]
              exact Or.inr h

/-! ### The initial remaining set -/

theorem dedup_fold_mem (l acc : List String) (x : String) :
    x ∈ l.foldl (fun s y => if y ∈ s then s else s ++ [y]) acc ↔ x ∈ acc ∨ x ∈ l := by
  induction l generalizing acc with
  | nil => simp
  | cons y rest ih =>
      simp only [List.foldl_cons]
      by_cases hy : y ∈ acc
      · rw [if_pos hy, ih]
        constructor
        · rintro (h | h)
          · exact Or.inl h
          · exact Or.inr (List.mem_cons_of_mem y h)
        · rintro (h | h)
          · exact Or.inl h
          · rcases List.mem_cons.mp h with rfl | h'
            · exact Or.inl hy
            · exact Or.inr h'
      · rw [if_neg hy, ih]
        simp only [List.mem_append, List.mem_singleton, List.mem_cons]
        tauto

theorem dedup_fold_nodup (l acc : List String) (h : acc.Nodup) :
    (l.foldl (fun s y => if y ∈ s then s else s ++ [y]) acc).Nodup := by
  induction l generalizing acc with
  | nil => exact h
  | cons y rest ih =>
      simp only [List.foldl_cons]
      by_cases hy : y ∈ acc
      · rw [if_pos hy]; exact ih _ h
      · rw [if_neg hy]
        apply ih
        rw [List.nodup_append]
        refine ⟨h, List.nodup_singleton y, ?_⟩
        intro a ha hay
        rw [List.mem_singleton] at hay
        subst hay
        exact hy ha

theorem dedup_fold_eq_of_nodup (l acc : List String) (h : l.Nodup)
    (hd : ∀ x ∈ l, x ∉ acc) :
    l.foldl (fun s y => if y ∈ s then s else s ++ [y]) acc = acc ++ l := by
  induction l generalizing acc with
  | nil => simp
  | cons y rest ih =>
      simp only [List.foldl_cons]
      rw [if_neg (hd y (List.mem_cons_self y rest))]
      rw [ih (acc ++ [y]) (List.Nodup.of_cons h), List.append_assoc]
      · rfl
      · intro x hx
        simp only [List.mem_append, List.mem_singleton, not_or]
        refine ⟨hd x (List.mem_cons_of_mem y hx), ?_⟩
        intro he
        subst he
        exact (List.nodup_cons.mp h).1 hx

theorem remaining_init_eq_foldl (nodes : List Node) :
    remaining_init nodes =
      (nodes.map (fun n => n.id)).foldl
        (fun s y => if y ∈ s then s else s ++ [y]) [] := by
  unfold remaining_init
  rw [List.foldl_map]

theorem mem_remaining_init (nodes : List Node) (x : String) :
    x ∈ remaining_init nodes ↔ x ∈ nodes.map (fun n => n.id) := by
  rw [remaining_init_eq_foldl, dedup_fold_mem]
  simp

theorem remaining_init_nodup (nodes : List Node) : (remaining_init nodes).Nodup := by
  rw [remaining_init_eq_foldl]
  exact dedup_fold_nodup _ _ List.nodup_nil

theorem remaining_init_of_nodup (nodes : List Node)
    (h : (nodes.map (fun n => n.id)).Nodup) :
    remaining_init nodes = nodes.map (fun n => n.id) := by
  rw [remaining_init_eq_foldl, dedup_fold_eq_of_nodup _ _ h (by simp), List.nil_append]

/-! ### The layer partition of `calculate_layers` -/

theorem LInv_init (graph : Dict (List String)) (nodes : List Node)
    (hn : (nodes.map (fun n => n.id)).Nodup) :
    LInv nodes (nodes.filter (fun n => degOf (init_in_degree graph nodes) n.id = 0))
      (init_in_degree graph nodes) (remaining_init nodes) := by
  refine ⟨remaining_init_nodup nodes, ?_, ?_⟩
  · exact List.Nodup.sublist (List.Sublist.map _ (List.filter_sublist nodes)) hn
  · intro n hn'
    have hmem := List.mem_of_mem_filter hn'
    have hdeg := List.of_mem_filter hn'
    refine ⟨le_of_eq (of_decide_eq_true hdeg), ?_, hmem⟩
    rw [mem_remaining_init]
    exact List.mem_map_of_mem _ hmem

theorem perm_of_nodup_mem_iff (l₁ l₂ : List String) (h₁ : l₁.Nodup) (h₂ : l₂.Nodup)
    (h : ∀ x, x ∈ l₁ ↔ x ∈ l₂) : l₁.Perm l₂ :=
  (h₁.subperm (fun x hx => (h x).mp hx)).antisymm
    (h₂.subperm (fun x hx => (h x).mpr hx))

theorem perm_of_map_id_perm (l₁ l₂ : List Node)
    (h2 : (l₂.map (fun n => n.id)).Nodup)
    (hsub : ∀ x ∈ l₁, x ∈ l₂)
    (hp : (l₁.map (fun n => n.id)).Perm (l₂.map (fun n => n.id))) :
    l₁.Perm l₂ := by
  have h1m : (l₁.map (fun n => n.id)).Nodup := hp.nodup_iff.mpr h2
  have h1 : l₁.Nodup := List.Nodup.of_map _ h1m
  have hsp : l₁.Subperm l₂ := h1.subperm hsub
  have hlen : l₂.length ≤ l₁.length := by
    have := hp.length_eq
    simp only [List.length_map] at this
    omega
  exact hsp.perm_of_length_le hlen

/-- Assembly step shared by the partition theorems: given the structural facts
about the loop output, the final layer list (with its optional catch-all
layer) flattens to a permutation of the input nodes. -/
theorem layers_partition_assemble (nodes : List Node)
    (hn : (nodes.map (fun n => n.id)).Nodup)
    (ls : List (List Node)) (remF : List String)
    (r1 : (ls.flatten.map (fun n => n.id)).Nodup)
    (r2 : ∀ x ∈ ls.flatten.map (fun n => n.id), x ∈ nodes.map (fun n => n.id))
    (r3 : ∀ x, x ∈ remF ↔
      x ∈ nodes.map (fun n => n.id) ∧ x ∉ ls.flatten.map (fun n => n.id))
    (r4 : ∀ m ∈ ls.flatten, m ∈ nodes) :
    (((if remF.isEmpty then ls
        else ls ++ [nodes.filter (fun n => decide (n.id ∈ remF))]).flatten)).Perm
      nodes := by
  by_cases hempty : remF.isEmpty
  · rw [if_pos hempty]
    apply perm_of_map_id_perm _ _ hn r4
    apply perm_of_nodup_mem_iff _ _ r1 hn
    intro x
    constructor
    · intro hx
      exact r2 x hx
    · intro hx
      by_contra hnx
      have hmem : x ∈ remF := (r3 x).mpr ⟨hx, hnx⟩
      rw [List.isEmpty_iff] at hempty
      rw [hempty] at hmem
      simp at hmem
  · rw [if_neg hempty]
    apply perm_of_map_id_perm _ _ hn
    · intro m hm
      rw [List.flatten_append] at hm
      rcases List.mem_append.mp hm with hm' | hm'
      · exact r4 m hm'
      · simp only [List.flatten_cons, List.flatten_nil, List.append_nil] at hm'
        exact List.mem_of_mem_filter hm'
    · rw [List.flatten_append]
      simp only [List.flatten_cons, List.flatten_nil, List.append_nil, List.map_append]
      apply perm_of_nodup_mem_iff
      · rw [List.nodup_append]
        refine ⟨r1, ?_, ?_⟩
        · exact List.Nodup.sublist (List.Sublist.map _ (List.filter_sublist nodes)) hn
        · intro x hx hx'
          obtain ⟨n, hn', hni⟩ := List.mem_map.mp hx'
          have hinrem : n.id ∈ remF := of_decide_eq_true (List.mem_filter.mp hn').2
          have hr := (r3 n.id).mp hinrem
          rw [hni] at hr
          exact hr.2 hx
      · exact hn
      · intro x
        constructor
        · intro hx
          rcases List.mem_append.mp hx with hx' | hx'
          · exact r2 x hx'
          · obtain ⟨n, hn', hni⟩ := List.mem_map.mp hx'
            rw [← hni]
            exact List.mem_map_of_mem _ (List.mem_of_mem_filter hn')
        · intro hx
          by_cases hpl : x ∈ ls.flatten.map (fun n => n.id)
          · exact List.mem_append.mpr (Or.inl hpl)
          · have hinrem : x ∈ remF := (r3 x).mpr ⟨hx, hpl⟩
            obtain ⟨n, hn', hni⟩ := List.mem_map.mp hx
            refine List.mem_append.mpr (Or.inr ?_)
            refine List.mem_map.mpr ⟨n, ?_, hni⟩
            apply List.mem_filter.mpr
            exact ⟨hn', decide_eq_true (by rw [hni]; exact hinrem)⟩

/-- Every input node occurs exactly once across the layers computed by
`_calculate_layers` (given pairwise-distinct node ids): the flattened
partition is a permutation of the input node list. -/
theorem calculate_layers_perm (graph : Dict (List String)) (nodes : List Node)
    (hn : (nodes.map (fun n => n.id)).Nodup) :
    ((calculate_layers graph nodes).flatten).Perm nodes := by
  have hrem := remaining_init_of_nodup nodes hn
  have hlen : (remaining_init nodes).length < nodes.length + 1 := by
    rw [hrem, List.length_map]
    omega
  obtain ⟨r1, r2, r3, r4, r5⟩ := layers_loop_partition graph nodes (nodes.length + 1)
    (nodes.filter (fun n => degOf (init_in_degree graph nodes) n.id = 0))
    (init_in_degree graph nodes) (remaining_init nodes) (LInv_init graph nodes hn) hlen
  unfold calculate_layers
  apply layers_partition_assemble nodes hn _ _ r1
  · intro x hx
    rw [← hrem]
    exact r2 x hx
  · intro x
    rw [r3 x, hrem]
  · exact r4

/-- Unconditional coverage: every input node's id appears somewhere in the
computed layers (cycle participants included, via the catch-all layer). -/
theorem calculate_layers_coverage (graph : Dict (List String)) (nodes : List Node) :
    ∀ n ∈ nodes, n.id ∈ (calculate_layers graph nodes).flatten.map (fun m => m.id) := by
  intro n hn
  have hx : n.id ∈ remaining_init nodes :=
    (mem_remaining_init nodes n.id).mpr (List.mem_map_of_mem _ hn)
  unfold calculate_layers
  rcases layers_loop_coverage graph nodes (nodes.length + 1)
      (nodes.filter (fun m => degOf (init_in_degree graph nodes) m.id = 0))
      (init_in_degree graph nodes) (remaining_init nodes) n.id hx with h | h
  · have hne : ¬(layers_loop graph nodes (nodes.length + 1)
        (nodes.filter (fun m => degOf (init_in_degree graph nodes) m.id = 0))
        (init_in_degree graph nodes) (remaining_init nodes)).2.isEmpty := by
      intro hcon
      rw [List.isEmpty_iff] at hcon
      rw [hcon] at h
      simp at h
    rw [if_neg hne, List.flatten_append]
    simp only [List.flatten_cons, List.flatten_nil, List.append_nil, List.map_append,
      List.mem_append]
    right
    exact List.mem_map_of_mem _ (List.mem_filter.mpr ⟨hn, decide_eq_true h⟩)
  · by_cases hempty : (layers_loop graph nodes (nodes.length + 1)
        (nodes.filter (fun m => degOf (init_in_degree graph nodes) m.id = 0))
        (init_in_degree graph nodes) (remaining_init nodes)).2.isEmpty
    · rw [if_pos hempty]
      exact h
    · rw [if_neg hempty, List.flatten_append]
      simp only [List.map_append, List.mem_append]
      exact Or.inl h

/-! ### The position map -/

theorem dget_place_layer_nodes_notmem (cw kq : ℚ) (i : Nat) (j : Nat)
    (layer : List Node) (pos : Dict NodePosition) (k : String)
    (hk : k ∉ layer.map (fun n => n.id)) :
    dget (place_layer_nodes cw kq i j layer pos) k = dget pos k := by
  induction layer generalizing j pos with
  | nil => rfl
  | cons n rest ih =>
      simp only [List.map_cons, List.mem_cons, not_or] at hk
      simp only [place_layer_nodes]
      rw [ih _ _ hk.2, dget_dset_ne _ _ _ _ hk.1]

theorem dget_place_layer_nodes_get (cw kq : ℚ) (i : Nat) (layer : List Node)
    (hl : (layer.map (fun n => n.id)).Nodup) :
    ∀ (j0 : Nat) (pos : Dict NodePosition) (j : Nat) (hj : j < layer.length),
      dget (place_layer_nodes cw kq i j0 layer pos) ((layer.get ⟨j, hj⟩).id) =
        some (mkNodePosition cw kq i (j0 + j)) := by
  induction layer with
  | nil => intro j0 pos j hj; simp at hj
  | cons n rest ih =>
      intro j0 pos j hj
      simp only [List.map_cons, List.nodup_cons] at hl
      cases j with
      | zero =>
          simp only [List.get, place_layer_nodes]
          rw [dget_place_layer_nodes_notmem _ _ _ _ _ _ _ hl.1, dget_dset_self,
            Nat.add_zero]
      | succ j' =>
          simp only [List.get, place_layer_nodes]
          have hj' : j' < rest.length := by
            simp only [List.length_cons] at hj
            omega
          rw [ih hl.2 (j0 + 1) _ j' hj']
          congr 2
          omega

theorem dget_place_layers_notmem (cw : ℚ) (layers : List (List Node)) :
    ∀ (i : Nat) (pos : Dict NodePosition) (k : String),
      k ∉ layers.flatten.map (fun n => n.id) →
      dget (place_layers cw i layers pos) k = dget pos k := by
  induction layers with
  | nil => intro i pos k _; rfl
  | cons layer rest ih =>
      intro i pos k hk
      simp only [List.flatten_cons, List.map_append, List.mem_append, not_or] at hk
      simp only [place_layers]
      rw [ih _ _ _ hk.2, dget_place_layer_nodes_notmem _ _ _ _ _ _ _ hk.1]

theorem dget_place_layers_get (cw : ℚ) (layers : List (List Node))
    (hnd : (layers.flatten.map (fun n => n.id)).Nodup) :
    ∀ (i0 : Nat) (pos : Dict NodePosition) (i : Nat) (hi : i < layers.length)
      (j : Nat) (hj : j < (layers.get ⟨i, hi⟩).length),
      dget (place_layers cw i0 layers pos) (((layers.get ⟨i, hi⟩).get ⟨j, hj⟩).id) =
        some (mkNodePosition cw (((layers.get ⟨i, hi⟩).length : ℚ)) (i0 + i) j) := by
  induction layers with
  | nil => intro i0 pos i hi; simp at hi
  | cons layer rest ih =>
      intro i0 pos i hi j hj
      simp only [List.flatten_cons, List.map_append, List.nodup_append] at hnd
      obtain ⟨h1, h2, hdisj⟩ := hnd
      cases i with
      | zero =>
          simp only [List.get, place_layers]
          have hmem : (layer.get ⟨j, hj⟩).id ∈ layer.map (fun n => n.id) :=
            List.mem_map_of_mem _ (layer.get_mem _ _)
          rw [dget_place_layers_notmem _ _ _ _ _ (fun hcon => hdisj hmem hcon),
            dget_place_layer_nodes_get cw _ i0 layer h1 0 pos j hj, Nat.add_zero,
            Nat.zero_add]
      | succ i' =>
          simp only [List.get, place_layers]
          have hi' : i' < rest.length := by
            simp only [List.length_cons] at hi
            omega
          rw [ih h2 (i0 + 1) _ i' hi' j hj]
          congr 2
          omega

theorem dget_place_layer_nodes_isSome (cw kq : ℚ) (i : Nat) (layer : List Node) :
    ∀ (j : Nat) (pos : Dict NodePosition) (k : String),
      k ∈ layer.map (fun n => n.id) ∨ (dget pos k).isSome →
      (dget (place_layer_nodes cw kq i j layer pos) k).isSome := by
  induction layer with
  | nil =>
      intro j pos k h
      rcases h with h | h
      · simp at h
      · exact h
  | cons m mrest ih =>
      intro j pos k h
      simp only [place_layer_nodes]
      apply ih
      rcases h with h | h
      · simp only [List.map_cons, List.mem_cons] at h
        rcases h with rfl | h'
        · right
          rw [dget_dset_self]
          rfl
        · exact Or.inl h'
      · right
        rw [dget_dset]
        by_cases hk : m.id = k
        · rw [if_pos hk]; rfl
        · rw [if_neg hk]; exact h

theorem dget_place_layers_isSome (cw : ℚ) (layers : List (List Node)) :
    ∀ (i : Nat) (pos : Dict NodePosition) (k : String),
      k ∈ layers.flatten.map (fun n => n.id) →
      (dget (place_layers cw i layers pos) k).isSome := by
  induction layers with
  | nil => intro i pos k hk; simp at hk
  | cons layer rest ih =>
      intro i pos k hk
      simp only [List.flatten_cons, List.map_append, List.mem_append] at hk
      by_cases hr : k ∈ rest.flatten.map (fun n => n.id)
      · exact ih _ _ _ hr
      · rcases hk with hk | hk
        · simp only [place_layers]
          rw [dget_place_layers_notmem _ _ _ _ _ hr]
          exact dget_place_layer_nodes_isSome cw _ i layer 0 pos k (Or.inl hk)
        · exact absurd hk hr

theorem dget_place_layer_nodes_shape (cw kq : ℚ) (i : Nat) (layer : List Node) :
    ∀ (j : Nat) (pos : Dict NodePosition) (k : String) (v : NodePosition),
      dget (place_layer_nodes cw kq i j layer pos) k = some v →
      (∃ j', v = mkNodePosition cw kq i j') ∨ dget pos k = some v := by
  induction layer with
  | nil => intro j pos k v h; exact Or.inr h
  | cons m mrest ih =>
      intro j pos k v h
      simp only [place_layer_nodes] at h
      rcases ih _ _ _ _ h with h' | h'
      · exact Or.inl h'
      · rw [dget_dset] at h'
        by_cases hk : m.id = k
        · rw [if_pos hk] at h'
          exact Or.inl ⟨j, (Option.some_injective _ h').symm⟩
        · rw [if_neg hk] at h'
          exact Or.inr h'

/-- Values of the computed position map always come from `mkNodePosition`. -/
theorem dget_place_layers_shape (cw : ℚ) (layers : List (List Node)) :
    ∀ (i0 : Nat) (pos : Dict NodePosition) (k : String) (v : NodePosition),
      dget (place_layers cw i0 layers pos) k = some v →
      (∃ kq i j, v = mkNodePosition cw kq i j) ∨ dget pos k = some v := by
  induction layers with
  | nil => intro i0 pos k v h; exact Or.inr h
  | cons layer rest ih =>
      intro i0 pos k v h
      simp only [place_layers] at h
      rcases ih _ _ _ _ h with h' | h'
      · exact Or.inl h'
      · rcases dget_place_layer_nodes_shape cw _ i0 layer 0 pos k v h' with ⟨j', rfl⟩ | h''
        · exact Or.inl ⟨_, _, _, rfl⟩
        · exact Or.inr h''

theorem mkNodePosition_y (cw kq : ℚ) (i j : Nat) :
    (mkNodePosition cw kq i j).y = (margin + 150) + (i : ℚ) * layer_spacing ∧
    (mkNodePosition cw kq i j).height = DEFAULT_NODE_HEIGHT := ⟨rfl, rfl⟩

/-- Every stored position sits at or below the first layer row
(`margin + 150 = 250`) and carries the fixed default height. -/
theorem calculate_layout_y_bound (cw : ℚ) (nodes : List Node) (edges : List Edge)
    (k : String) (v : NodePosition)
    (h : dget (calculate_layout cw nodes edges) k = some v) :
    250 ≤ v.y ∧ v.height = 100 := by
  unfold calculate_layout at h
  rcases dget_place_layers_shape cw _ _ _ _ _ h with ⟨kq, i, j, rfl⟩ | h'
  · constructor
    · show (250 : ℚ) ≤ (margin + 150) + (i : ℚ) * layer_spacing
      have hi : (0 : ℚ) ≤ (i : ℚ) := Nat.cast_nonneg i
      have : (0 : ℚ) ≤ (i : ℚ) * layer_spacing := by
        unfold layer_spacing
        positivity
      unfold margin
      linarith
    · rfl
  · rw [dget_nil] at h'
    exact absurd h' (by simp)

/-- The layout covers every input node: the `positions.get(node["id"])` lookup
in `convert` (line 268) never yields `None`. -/
theorem positions_total (cw : ℚ) (nodes : List Node) (edges : List Edge) :
    ∀ n ∈ nodes, (dget (calculate_layout cw nodes edges) n.id).isSome := by
  intro n hn
  unfold calculate_layout
  exact dget_place_layers_isSome cw _ 0 [] n.id
    (calculate_layers_coverage (build_graph nodes edges) nodes n hn)

/-! ### Injectivity of the id counter (`_generate_id`) -/

/-- Decimal digit characters of a natural number, most significant first:
reference function used to characterise the fuelled `Nat.toDigitsCore`. -/
def natChars (n : Nat) : List Char :=
  if n < 10 then [Nat.digitChar n]
  else natChars (n / 10) ++ [Nat.digitChar (n % 10)]
  decreasing_by exact Nat.div_lt_self (by omega) (by omega)

theorem natChars_of_lt (n : Nat) (h : n < 10) : natChars n = [Nat.digitChar n] := by
  rw [natChars]
  simp [h]

theorem natChars_of_ge (n : Nat) (h : ¬n < 10) :
    natChars n = natChars (n / 10) ++ [Nat.digitChar (n % 10)] := by
  rw [natChars]
  simp [h]

theorem toDigitsCore_eq_natChars :
    ∀ (f n : Nat) (l : List Char), n < 10 ^ f → 0 < f →
    Nat.toDigitsCore 10 f n l = natChars n ++ l := by
  intro f
  induction f with
  | zero => intro n l _ h; omega
  | succ f ih =>
      intro n l hn _
      by_cases h10 : n < 10
      · have hdiv : n / 10 = 0 := Nat.div_eq_of_lt h10
        have hmod : n % 10 = n := Nat.mod_eq_of_lt h10
        rw [natChars_of_lt n h10]
        show (if n / 10 = 0 then Nat.digitChar (n % 10) :: l
          else Nat.toDigitsCore 10 f (n / 10) (Nat.digitChar (n % 10) :: l)) =
            [Nat.digitChar n] ++ l
        rw [if_pos hdiv, hmod]
        rfl
      · have hdiv : n / 10 ≠ 0 := by omega
        have hfpos : 0 < f := by
          by_contra hf
          have hf0 : f = 0 := by omega
          subst hf0
          norm_num at hn
          omega
        have hlt : n / 10 < 10 ^ f := by
          rw [Nat.div_lt_iff_lt_mul (by omega)]
          calc n < 10 ^ (f + 1) := hn
            _ = 10 ^ f * 10 := by ring
        rw [natChars_of_ge n h10]
        show (if n / 10 = 0 then Nat.digitChar (n % 10) :: l
          else Nat.toDigitsCore 10 f (n / 10) (Nat.digitChar (n % 10) :: l)) =
            (natChars (n / 10) ++ [Nat.digitChar (n % 10)]) ++ l
        rw [if_neg hdiv, ih (n / 10) (Nat.digitChar (n % 10) :: l) hlt hfpos]
        simp

theorem repr_eq_natChars (n : Nat) : Nat.repr n = (natChars n).asString := by
  show (Nat.toDigits 10 n).asString = (natChars n).asString
  unfold Nat.toDigits
  rw [toDigitsCore_eq_natChars (n + 1) n [] ?_ (by omega)]
  · simp
  · calc n < 10 ^ n := Nat.lt_pow_self (by omega) n
      _ ≤ 10 ^ (n + 1) := Nat.pow_le_pow_right (by omega) (by omega)

/-- Decimal value of a digit character. -/
def digitVal (c : Char) : Nat := c.toNat - 48

/-- Decimal value of a digit-character string, most significant first. -/
def listVal (l : List Char) : Nat := l.foldl (fun a c => 10 * a + digitVal c) 0

theorem digitVal_digitChar (d : Nat) (h : d < 10) :
    digitVal (Nat.digitChar d) = d := by
  interval_cases d <;> rfl

theorem listVal_natChars (n : Nat) : listVal (natChars n) = n := by
  induction n using Nat.strong_induction_on with
  | _ n ih =>
      by_cases h10 : n < 10
      · rw [natChars_of_lt n h10]
        show 10 * 0 + digitVal (Nat.digitChar n) = n
        rw [digitVal_digitChar n h10]
        omega
      · rw [natChars_of_ge n h10]
        unfold listVal
        rw [List.foldl_append]
        have hrec : List.foldl (fun a c => 10 * a + digitVal c) 0 (natChars (n / 10))
            = n / 10 := ih (n / 10) (Nat.div_lt_self (by omega) (by omega))
        simp only [List.foldl_cons, List.foldl_nil, hrec]
        rw [digitVal_digitChar (n % 10) (Nat.mod_lt n (by omega))]
        omega

theorem natChars_injective (m n : Nat) (h : natChars m = natChars n) : m = n := by
  have hm := listVal_natChars m
  have hn := listVal_natChars n
  rw [← hm, ← hn, h]

theorem nat_repr_injective (m n : Nat) (h : Nat.repr m = Nat.repr n) : m = n := by
  rw [repr_eq_natChars, repr_eq_natChars] at h
  apply natChars_injective
  have hd : (natChars m).asString.data = (natChars n).asString.data := by rw [h]
  simpa [List.asString] using hd

/-- The ids produced by the monotonic counter are pairwise distinct: distinct
counter states yield distinct `element_{k}` strings. -/
theorem generate_id_injective (c₁ c₂ : Nat)
    (h : (generate_id c₁).1 = (generate_id c₂).1) : c₁ = c₂ := by
  have h' : "element_" ++ Nat.repr (c₁ + 1) = "element_" ++ Nat.repr (c₂ + 1) := h
  have hd : ("element_" ++ Nat.repr (c₁ + 1)).data
      = ("element_" ++ Nat.repr (c₂ + 1)).data := by rw [h']
  simp only [String.data_append] at hd
  have hr : (Nat.repr (c₁ + 1)).data = (Nat.repr (c₂ + 1)).data :=
    List.append_cancel_left hd
  have := nat_repr_injective (c₁ + 1) (c₂ + 1) (String.ext hr)
  omega

/-! ### Remaining supporting lemmas -/

theorem dget_none_of_not_mem_keys {α : Type} (d : Dict α) (k : String)
    (h : k ∉ d.map (fun kv => kv.1)) : dget d k = none := by
  induction d with
  | nil => rfl
  | cons kv rest ih =>
      simp only [List.map_cons, List.mem_cons, not_or] at h
      obtain ⟨k', v'⟩ := kv
      rw [dget_cons, if_neg (fun hh => h.1 hh.symm)]
      exact ih h.2

/-- The grid formula of `calculate_layout`: the node at index `j` of layer `i`
(with `k` nodes in the layer) is stored at the `mkNodePosition` coordinates. -/
theorem calculate_layout_get (cw : ℚ) (nodes : List Node) (edges : List Edge)
    (hn : (nodes.map (fun n => n.id)).Nodup)
    (i : Nat) (hi : i < (calculate_layers (build_graph nodes edges) nodes).length)
    (j : Nat)
    (hj : j < ((calculate_layers (build_graph nodes edges) nodes).get ⟨i, hi⟩).length) :
    dget (calculate_layout cw nodes edges)
        ((((calculate_layers (build_graph nodes edges) nodes).get ⟨i, hi⟩).get
          ⟨j, hj⟩).id) =
      some (mkNodePosition cw
        ((((calculate_layers (build_graph nodes edges) nodes).get ⟨i, hi⟩).length : ℚ))
        i j) := by
  have hperm := calculate_layers_perm (build_graph nodes edges) nodes hn
  have hflat : ((calculate_layers (build_graph nodes edges) nodes).flatten.map
      (fun n => n.id)).Nodup := (hperm.map (fun n => n.id)).nodup_iff.mpr hn
  unfold calculate_layout
  have h := dget_place_layers_get cw (calculate_layers (build_graph nodes edges) nodes)
    hflat 0 [] i hi j hj
  rw [Nat.zero_add] at h
  exact h

theorem read_nodes_ok_of_ids (rns : List RawNode)
    (h : ∀ n ∈ rns, n.id.isSome) : ∃ ns, read_nodes rns = Except.ok ns := by
  induction rns with
  | nil => exact ⟨[], rfl⟩
  | cons rn rest ih =>
      obtain ⟨i, hi⟩ := Option.isSome_iff_exists.mp (h rn (List.mem_cons_self rn rest))
      obtain ⟨ns, hns⟩ := ih (fun n hn => h n (List.mem_cons_of_mem rn hn))
      refine ⟨⟨i, rn.label, rn.type, rn.status, rn.tech_stack, rn.alerts⟩ :: ns, ?_⟩
      simp [read_nodes, hi, hns]

theorem read_nodes_error (rns : List RawNode) (e : String)
    (h : read_nodes rns = Except.error e) : e = "id" := by
  induction rns with
  | nil => simp [read_nodes] at h
  | cons rn rest ih =>
      simp only [read_nodes] at h
      cases hid : rn.id with
      | none =>
          rw [hid] at h
          injection h with h
          exact h.symm
      | some i =>
          rw [hid] at h
          cases hrest : read_nodes rest with
          | ok ns => rw [hrest] at h; simp at h
          | error e' =>
              rw [hrest] at h
              injection h with h
              subst h
              exact ih hrest

theorem read_nodes_error_of_missing (rns : List RawNode)
    (h : ∃ n ∈ rns, n.id = none) : read_nodes rns = Except.error "id" := by
  induction rns with
  | nil => simp at h
  | cons rn rest ih =>
      obtain ⟨n, hn, hnone⟩ := h
      cases hid : rn.id with
      | none => simp [read_nodes, hid]
      | some i =>
          rcases List.mem_cons.mp hn with rfl | hn'
          · rw [hid] at hnone; simp at hnone
          · have := ih ⟨n, hn', hnone⟩
            simp [read_nodes, hid, this]

theorem read_edges_ok_of_fields (res : List RawEdge)
    (h : ∀ e ∈ res, e.source.isSome ∧ e.target.isSome) :
    ∃ es, read_edges res = Except.ok es := by
  induction res with
  | nil => exact ⟨[], rfl⟩
  | cons re rest ih =>
      obtain ⟨s, hs⟩ := Option.isSome_iff_exists.mp (h re (List.mem_cons_self re rest)).1
      obtain ⟨t, ht⟩ := Option.isSome_iff_exists.mp (h re (List.mem_cons_self re rest)).2
      obtain ⟨es, hes⟩ := ih (fun e he => h e (List.mem_cons_of_mem re he))
      refine ⟨⟨s, t, re.interaction, re.label⟩ :: es, ?_⟩
      simp [read_edges, hs, ht, hes]

theorem read_edges_error (res : List RawEdge) (e : String)
    (h : read_edges res = Except.error e) : e = "source" ∨ e = "target" := by
  induction res with
  | nil => simp [read_edges] at h
  | cons re rest ih =>
      simp only [read_edges] at h
      cases hs : re.source with
      | none =>
          rw [hs] at h
          injection h with h
          exact Or.inl h.symm
      | some s =>
          rw [hs] at h
          cases ht : re.target with
          | none =>
              rw [ht] at h
              injection h with h
              exact Or.inr h.symm
          | some t =>
              rw [ht] at h
              cases hrest : read_edges rest with
              | ok es => rw [hrest] at h; simp at h
              | error e' =>
                  rw [hrest] at h
                  injection h with h
                  subst h
                  exact ih hrest

theorem read_edges_error_of_missing (res : List RawEdge)
    (h : ∃ e ∈ res, e.source = none ∨ e.target = none) :
    ∃ err, read_edges res = Except.error err := by
  induction res with
  | nil => simp at h
  | cons re rest ih =>
      obtain ⟨e, he, hmiss⟩ := h
      cases hs : re.source with
      | none => exact ⟨"source", by simp [read_edges, hs]⟩
      | some s =>
          cases ht : re.target with
          | none => exact ⟨"target", by simp [read_edges, hs, ht]⟩
          | some t =>
              rcases List.mem_cons.mp he with rfl | he'
              · rw [hs, ht] at hmiss
                rcases hmiss with hc | hc <;> simp at hc
              · obtain ⟨err, herr⟩ := ih ⟨e, he', hmiss⟩
                exact ⟨err, by simp [read_edges, hs, ht, herr]⟩

/-! ### Claim theorems -/

/-- C1: for every valid input (nodes with unique ids, any edge list), the
layer partition computed by `_calculate_layers` contains every input node
exactly once — flattening the layers yields a permutation of the input node
list.  The partition itself is a pure function of the input lists, so it is
deterministic in the input order by construction. -/
theorem layer_partition_exactly_once (nodes : List Node) (edges : List Edge)
    (hn : (nodes.map (fun n => n.id)).Nodup) :
    ((calculate_layers (build_graph nodes edges) nodes).flatten).Perm nodes :=
  calculate_layers_perm (build_graph nodes edges) nodes hn

/-- Input fixture for the C1 witness. -/
def c1Nodes : List Node :=
  [⟨"client", none, none, none, none, []⟩, ⟨"api", none, none, none, none, []⟩,
   ⟨"db", none, none, none, none, []⟩]

/-- Edge fixture for the C1 witness. -/
def c1Edges : List Edge := [⟨"client", "api", none, none⟩, ⟨"api", "db", none, none⟩]

theorem layer_partition_exactly_once_witness :
    ((calculate_layers (build_graph c1Nodes c1Edges) c1Nodes).flatten).Perm c1Nodes :=
  layer_partition_exactly_once c1Nodes c1Edges (by decide)

/-- C2 counterexample: the in-degree used by the layering pass does not count
edges whose source is not a known node id.  With a single node `a` and one
edge `ghost → a`, the full edge list has one edge targeting `a`, yet the
computed in-degree of `a` is `0`, not `1`. -/
theorem in_degree_ignores_unknown_sources :
    degOf (init_in_degree
        (build_graph [⟨"a", none, none, none, none, []⟩]
          [⟨"ghost", "a", none, none⟩])
        [⟨"a", none, none, none, none, []⟩]) "a" = 0 ∧
    (([⟨"ghost", "a", none, none⟩] : List Edge).filter
        (fun e => e.target == "a")).length = 1 := by
  decide

/-- C2 amended: for unique node ids, the per-node in-degree used by the
layering pass equals the number of edges whose target is that id and whose
source is itself a known node id (edges with an unknown source were dropped
when the adjacency table was built and are never counted). -/
theorem in_degree_counts_known_source_edges (nodes : List Node) (edges : List Edge)
    (t : String) (hn : (nodes.map (fun n => n.id)).Nodup) :
    degOf (init_in_degree (build_graph nodes edges) nodes) t =
      ((edges.filter (fun e =>
        e.target == t && decide (e.source ∈ nodes.map (fun n => n.id)))).length : Int) :=
  degOf_init_in_degree nodes edges t hn

theorem in_degree_counts_known_source_edges_witness :
    degOf (init_in_degree
        (build_graph [⟨"a", none, none, none, none, []⟩]
          [⟨"ghost", "a", none, none⟩])
        [⟨"a", none, none, none, none, []⟩]) "a" =
      ((([⟨"ghost", "a", none, none⟩] : List Edge).filter (fun e =>
        e.target == "a" && decide (e.source ∈
          ([⟨"a", none, none, none, none, []⟩] : List Node).map (fun n => n.id)))).length
        : Int) :=
  in_degree_counts_known_source_edges
    [⟨"a", none, none, none, none, []⟩] [⟨"ghost", "a", none, none⟩] "a" (by decide)

/-- C4: the layout computation terminates on every valid input, cyclic graphs
included: (a) the fuelled rendition of the `while` loop is insensitive to any
extra fuel beyond `|nodes| + 1`, because (b) each iteration of the loop
strictly shrinks the `remaining` set; (c) every input node is still placed in
some layer; and (d) whenever ids remain unplaced after the loop, they are
collected into exactly one final extra layer, in original input order. -/
theorem layout_terminates_and_places_all (nodes : List Node) (edges : List Edge)
    (hn : (nodes.map (fun n => n.id)).Nodup) :
    (∀ extra : Nat,
      layers_loop (build_graph nodes edges) nodes (nodes.length + 1 + extra)
        (nodes.filter (fun n =>
          degOf (init_in_degree (build_graph nodes edges) nodes) n.id = 0))
        (init_in_degree (build_graph nodes edges) nodes) (remaining_init nodes) =
      layers_loop (build_graph nodes edges) nodes (nodes.length + 1)
        (nodes.filter (fun n =>
          degOf (init_in_degree (build_graph nodes edges) nodes) n.id = 0))
        (init_in_degree (build_graph nodes edges) nodes) (remaining_init nodes)) ∧
    (∀ (cur : List Node) (deg : Dict Int) (rem : List String),
      (∃ n ∈ cur, n.id ∈ rem) →
      (process_layer_nodes (build_graph nodes edges) nodes cur (deg, rem, [])).2.1.length
        < rem.length) ∧
    (∀ n ∈ nodes,
      n.id ∈ (calculate_layers (build_graph nodes edges) nodes).flatten.map
        (fun m => m.id)) ∧
    (¬(layers_loop (build_graph nodes edges) nodes (nodes.length + 1)
        (nodes.filter (fun n =>
          degOf (init_in_degree (build_graph nodes edges) nodes) n.id = 0))
        (init_in_degree (build_graph nodes edges) nodes) (remaining_init nodes)).2.isEmpty →
      calculate_layers (build_graph nodes edges) nodes =
        (layers_loop (build_graph nodes edges) nodes (nodes.length + 1)
          (nodes.filter (fun n =>
            degOf (init_in_degree (build_graph nodes edges) nodes) n.id = 0))
          (init_in_degree (build_graph nodes edges) nodes) (remaining_init nodes)).1 ++
        [nodes.filter (fun n => decide (n.id ∈
          (layers_loop (build_graph nodes edges) nodes (nodes.length + 1)
            (nodes.filter (fun n =>
              degOf (init_in_degree (build_graph nodes edges) nodes) n.id = 0))
            (init_in_degree (build_graph nodes edges) nodes)
            (remaining_init nodes)).2))]) := by
  have hlen : (remaining_init nodes).length < nodes.length + 1 := by
    rw [remaining_init_of_nodup nodes hn, List.length_map]
    omega
  refine ⟨?_, ?_, calculate_layers_coverage (build_graph nodes edges) nodes, ?_⟩
  · intro extra
    exact layers_loop_fuel_stable (build_graph nodes edges) nodes _ _ _ _ _
      (LInv_init (build_graph nodes edges) nodes hn) (by omega) hlen
  · intro cur deg rem hex
    rw [process_layer_nodes_rem]
    exact erase_fold_length_lt _ _ hex
  · intro hne
    unfold calculate_layers
    rw [if_neg hne]

/-- Node fixture for the C4 witness: a 2-cycle `a → b → a`. -/
def c4Nodes : List Node :=
  [⟨"a", none, none, none, none, []⟩, ⟨"b", none, none, none, none, []⟩]

/-- Edge fixture for the C4 witness. -/
def c4Edges : List Edge := [⟨"a", "b", none, none⟩, ⟨"b", "a", none, none⟩]

theorem layout_terminates_and_places_all_witness :
    ("a" ∈ (calculate_layers (build_graph c4Nodes c4Edges) c4Nodes).flatten.map
      (fun m => m.id)) ∧
    ("b" ∈ (calculate_layers (build_graph c4Nodes c4Edges) c4Nodes).flatten.map
      (fun m => m.id)) ∧
    (calculate_layers (build_graph c4Nodes c4Edges) c4Nodes).map
      (fun l => l.map (fun n => n.id)) = [["a", "b"]] := by
  have h := layout_terminates_and_places_all c4Nodes c4Edges (by decide)
  refine ⟨?_, ?_, by decide⟩
  · exact h.2.2.1 ⟨"a", none, none, none, none, []⟩ (by decide)
  · exact h.2.2.1 ⟨"b", none, none, none, none, []⟩ (by decide)

theorem create_edge_emits (positions : Dict NodePosition) (e : Edge)
    (sp tp : NodePosition) (hs : dget positions e.source = some sp)
    (ht : dget positions e.target = some tp) (hy : 0 < sp.y + sp.height) :
    get_edge_points positions e.source e.target =
      [(sp.center_x, sp.y + sp.height), (tp.center_x, tp.y)] ∧
    ∃ arrow rest, create_edge positions e = arrow :: rest ∧
      arrow.type = "arrow" ∧ arrow.id = "edge_" ++ e.source ++ "_" ++ e.target := by
  have hpts : get_edge_points positions e.source e.target =
      [(sp.center_x, sp.y + sp.height), (tp.center_x, tp.y)] := by
    unfold get_edge_points
    rw [hs, ht]
  refine ⟨hpts, ?_⟩
  have hcond : ¬(get_edge_points positions e.source e.target = [] ∨
      get_edge_points positions e.source e.target = [((0 : ℚ), (0 : ℚ)), (0, 0)]) := by
    rw [hpts]
    rintro (h | h)
    · simp at h
    · have h0 := List.head_eq_of_cons_eq h
      have h1 : sp.y + sp.height = 0 := congrArg Prod.snd h0
      rw [h1] at hy
      exact lt_irrefl 0 hy
  unfold create_edge
  rw [if_neg hcond, hpts]
  exact ⟨_, _, rfl, rfl, rfl⟩

/-- C3: for every edge, if either endpoint id has no stored position, the
edge-point query returns the origin-origin sentinel pair and `_create_edge`
emits nothing (and raises nothing); otherwise the query returns the source's
bottom-centre and the target's top-centre, and `_create_edge` emits an arrow
element for the edge. -/
theorem edge_points_and_rendering (cw : ℚ) (nodes : List Node) (edges : List Edge)
    (e : Edge) :
    ((dget (calculate_layout cw nodes edges) e.source = none ∨
      dget (calculate_layout cw nodes edges) e.target = none) →
      get_edge_points (calculate_layout cw nodes edges) e.source e.target =
        [(0, 0), (0, 0)] ∧
      create_edge (calculate_layout cw nodes edges) e = []) ∧
    (∀ sp tp, dget (calculate_layout cw nodes edges) e.source = some sp →
      dget (calculate_layout cw nodes edges) e.target = some tp →
      get_edge_points (calculate_layout cw nodes edges) e.source e.target =
        [(sp.center_x, sp.y + sp.height), (tp.center_x, tp.y)] ∧
      ∃ arrow rest, create_edge (calculate_layout cw nodes edges) e = arrow :: rest ∧
        arrow.type = "arrow" ∧ arrow.id = "edge_" ++ e.source ++ "_" ++ e.target) := by
  constructor
  · intro hmiss
    have hpts : get_edge_points (calculate_layout cw nodes edges) e.source e.target =
        [(0, 0), (0, 0)] := by
      unfold get_edge_points
      rcases hmiss with h | h
      · rw [h]
      · rw [h]
        cases dget (calculate_layout cw nodes edges) e.source <;> rfl
    refine ⟨hpts, ?_⟩
    unfold create_edge
    rw [if_pos (Or.inr hpts)]
  · intro sp tp hs ht
    have hb := calculate_layout_y_bound cw nodes edges e.source sp hs
    exact create_edge_emits _ e sp tp hs ht (by
      have h1 := hb.1
      have h2 := hb.2
      rw [h2]
      linarith)

/-- Node fixture for the C3 witness. -/
def c3Nodes : List Node :=
  [⟨"a", none, none, none, none, []⟩, ⟨"b", none, none, none, none, []⟩]

/-- Edge fixture for the C3 witness: the rendered edge targets a ghost id. -/
def c3Edges : List Edge := [⟨"a", "ghost", none, none⟩]

theorem edge_points_and_rendering_witness :
    get_edge_points (calculate_layout 2000 c3Nodes c3Edges) "a" "ghost" =
      [(0, 0), (0, 0)] ∧
    create_edge (calculate_layout 2000 c3Nodes c3Edges) ⟨"a", "ghost", none, none⟩ = [] := by
  have hnone : dget (calculate_layout 2000 c3Nodes c3Edges) "ghost" = none := by
    unfold calculate_layout
    rw [dget_place_layers_notmem 2000 _ 0 [] "ghost" (by decide)]
    rfl
  exact (edge_points_and_rendering 2000 c3Nodes c3Edges ⟨"a", "ghost", none, none⟩).1
    (Or.inr hnone)

/-- C10: for every edge whose two endpoint ids both have stored positions, the
sentinel-skip branch is unreachable: every placed node sits at
`y ≥ margin + 150 > 0`, so the start point's y-coordinate is strictly
positive, the computed point pair differs from `[[0,0],[0,0]]`, and the edge
always yields an arrow element. -/
theorem resolved_edge_never_sentinel (cw : ℚ) (nodes : List Node)
    (edges : List Edge) (e : Edge) (sp tp : NodePosition)
    (hs : dget (calculate_layout cw nodes edges) e.source = some sp)
    (ht : dget (calculate_layout cw nodes edges) e.target = some tp) :
    (margin + 150 ≤ sp.y ∧ (0 : ℚ) < margin + 150 ∧ 0 < sp.y + sp.height) ∧
    get_edge_points (calculate_layout cw nodes edges) e.source e.target ≠
      [(0, 0), (0, 0)] ∧
    create_edge (calculate_layout cw nodes edges) e ≠ [] := by
  have hb := calculate_layout_y_bound cw nodes edges e.source sp hs
  have hy : (0 : ℚ) < sp.y + sp.height := by
    have h1 := hb.1
    have h2 := hb.2
    rw [h2]
    linarith
  have hmargin : margin + 150 ≤ sp.y := by
    have h1 := hb.1
    unfold margin
    linarith
  obtain ⟨hpts, arrow, rest, hce, _, _⟩ := create_edge_emits _ e sp tp hs ht hy
  refine ⟨⟨hmargin, by unfold margin; norm_num, hy⟩, ?_, ?_⟩
  · rw [hpts]
    intro hcon
    have h0 := List.head_eq_of_cons_eq hcon
    have h1 : sp.y + sp.height = 0 := congrArg Prod.snd h0
    rw [h1] at hy
    exact lt_irrefl 0 hy
  · rw [hce]
    exact List.cons_ne_nil arrow rest

/-- Node fixture for the C10 witness. -/
def c10Nodes : List Node :=
  [⟨"a", none, none, none, none, []⟩, ⟨"b", none, none, none, none, []⟩]

/-- Edge fixture for the C10 witness (both endpoints resolve). -/
def c10Edges : List Edge := [⟨"a", "b", none, none⟩]

theorem resolved_edge_never_sentinel_witness :
    get_edge_points (calculate_layout 2000 c10Nodes c10Edges) "a" "b" ≠
      [(0, 0), (0, 0)] ∧
    create_edge (calculate_layout 2000 c10Nodes c10Edges) ⟨"a", "b", none, none⟩ ≠ [] := by
  have hsa : (dget (calculate_layout 2000 c10Nodes c10Edges) "a").isSome :=
    positions_total 2000 c10Nodes c10Edges ⟨"a", none, none, none, none, []⟩ (by decide)
  have hsb : (dget (calculate_layout 2000 c10Nodes c10Edges) "b").isSome :=
    positions_total 2000 c10Nodes c10Edges ⟨"b", none, none, none, none, []⟩ (by decide)
  obtain ⟨sp, hsp⟩ := Option.isSome_iff_exists.mp hsa
  obtain ⟨tp, htp⟩ := Option.isSome_iff_exists.mp hsb
  have h := resolved_edge_never_sentinel 2000 c10Nodes c10Edges
    ⟨"a", "b", none, none⟩ sp tp hsp htp
  exact ⟨h.2.1, h.2.2⟩

/-- First node of the C5 chain fixture. -/
def c5A : Node := ⟨"A", none, none, none, none, []⟩

/-- Second node of the C5 chain fixture. -/
def c5B : Node := ⟨"B", none, none, none, none, []⟩

/-- Third node of the C5 chain fixture. -/
def c5C : Node := ⟨"C", none, none, none, none, []⟩

/-- Node fixture for the C5 chain: `A → B → C`. -/
def c5Nodes : List Node := [c5A, c5B, c5C]

/-- Edge fixture for the C5 chain. -/
def c5Edges : List Edge := [⟨"A", "B", none, none⟩, ⟨"B", "C", none, none⟩]

/-- The closed chain part of claim C5: a pure chain `A → B → C` yields three
single-node layers in that order, with strictly increasing y-coordinates
separated by the configured layer spacing. -/
def chainStatement : Prop :=
  calculate_layers (build_graph c5Nodes c5Edges) c5Nodes = [[c5A], [c5B], [c5C]] ∧
  dget (calculate_layout 2000 c5Nodes c5Edges) "A" = some (mkNodePosition 2000 1 0 0) ∧
  dget (calculate_layout 2000 c5Nodes c5Edges) "B" = some (mkNodePosition 2000 1 1 0) ∧
  dget (calculate_layout 2000 c5Nodes c5Edges) "C" = some (mkNodePosition 2000 1 2 0) ∧
  (mkNodePosition 2000 1 1 0).y = (mkNodePosition 2000 1 0 0).y + layer_spacing ∧
  (mkNodePosition 2000 1 2 0).y = (mkNodePosition 2000 1 1 0).y + layer_spacing ∧
  (mkNodePosition 2000 1 0 0).y < (mkNodePosition 2000 1 1 0).y ∧
  (mkNodePosition 2000 1 1 0).y < (mkNodePosition 2000 1 2 0).y

/-- C5: with unique node ids, the node at index `j` (0-based) of layer `i`
(0-based, `k` nodes in the layer) is stored at
`x = (canvasWidth - k * nodeSpacing) / 2 + j * nodeSpacing`,
`y = margin + 150 + i * layerSpacing`, with the fixed default width and
height and `center = (x + width/2, y + height/2)`; and a pure chain
`A → B → C` yields three single-node layers with strictly increasing
y-coordinates separated by the layer spacing. -/
theorem position_formula (cw : ℚ) (nodes : List Node) (edges : List Edge)
    (hn : (nodes.map (fun n => n.id)).Nodup) :
    (∀ (i : Nat) (hi : i < (calculate_layers (build_graph nodes edges) nodes).length)
      (j : Nat)
      (hj : j < ((calculate_layers (build_graph nodes edges) nodes).get ⟨i, hi⟩).length),
      dget (calculate_layout cw nodes edges)
          ((((calculate_layers (build_graph nodes edges) nodes).get ⟨i, hi⟩).get
            ⟨j, hj⟩).id) =
        some
          { x := (cw - (((calculate_layers (build_graph nodes edges) nodes).get
                ⟨i, hi⟩).length : ℚ) * node_spacing) / 2 + (j : ℚ) * node_spacing,
            y := margin + 150 + (i : ℚ) * layer_spacing,
            width := DEFAULT_NODE_WIDTH,
            height := DEFAULT_NODE_HEIGHT,
            center_x := (cw - (((calculate_layers (build_graph nodes edges) nodes).get
                ⟨i, hi⟩).length : ℚ) * node_spacing) / 2 + (j : ℚ) * node_spacing +
              DEFAULT_NODE_WIDTH / 2,
            center_y := margin + 150 + (i : ℚ) * layer_spacing +
              DEFAULT_NODE_HEIGHT / 2 }) ∧
    chainStatement := by
  constructor
  · intro i hi j hj
    have h := calculate_layout_get cw nodes edges hn i hi j hj
    rw [h]
    rfl
  · have hlay : calculate_layers (build_graph c5Nodes c5Edges) c5Nodes =
        [[c5A], [c5B], [c5C]] := by decide
    have hpos : calculate_layout 2000 c5Nodes c5Edges =
        place_layers 2000 0 [[c5A], [c5B], [c5C]] [] := by
      show place_layers 2000 0 (calculate_layers (build_graph c5Nodes c5Edges) c5Nodes) []
        = place_layers 2000 0 [[c5A], [c5B], [c5C]] []
      rw [hlay]
    refine ⟨hlay, ?_, ?_, ?_, ?_, ?_, ?_, ?_⟩
    · rw [hpos]; rfl
    · rw [hpos]; rfl
    · rw [hpos]; rfl
    · show (margin + 150) + (1 : ℚ) * layer_spacing =
        ((margin + 150) + (0 : ℚ) * layer_spacing) + layer_spacing
      ring
    · show (margin + 150) + (2 : ℚ) * layer_spacing =
        ((margin + 150) + (1 : ℚ) * layer_spacing) + layer_spacing
      ring
    · show (margin + 150) + (0 : ℚ) * layer_spacing <
        (margin + 150) + (1 : ℚ) * layer_spacing
      unfold layer_spacing
      norm_num
    · show (margin + 150) + (1 : ℚ) * layer_spacing <
        (margin + 150) + (2 : ℚ) * layer_spacing
      unfold layer_spacing
      norm_num

theorem position_formula_witness : chainStatement :=
  (position_formula 2000 c5Nodes c5Edges (by decide)).2

/-- Document fixture for the C7 counterexample. -/
def c7Doc : Doc := ⟨none, none, none, [], [], none⟩

/-- C7 counterexample: the envelope's type tag is the literal `"excalidraw"`,
not the `"excalidraw-like"` stated by the claim. -/
theorem envelope_type_counterexample :
    (convert c7Doc).type = "excalidraw" ∧ (convert c7Doc).type ≠ "excalidraw-like" := by
  exact ⟨rfl, by decide⟩

/-- C7 amended: for every input document, the envelope returned by `convert`
carries type tag `"excalidraw"`, version `2`, the source marker
`"https://excalidraw.com"`, and the full ordered element list. -/
theorem envelope_fields (doc : Doc) :
    (convert doc).type = "excalidraw" ∧ (convert doc).version = 2 ∧
    (convert doc).source = "https://excalidraw.com" ∧
    (convert doc).elements = convert_elements doc :=
  ⟨rfl, rfl, rfl, rfl⟩

/-- Document fixture for the C6 counterexample: the same edge `a → b` twice. -/
def c6Doc : Doc :=
  ⟨none, none, none,
   [⟨"a", none, none, none, none, []⟩, ⟨"b", none, none, none, none, []⟩],
   [⟨"a", "b", none, none⟩, ⟨"a", "b", none, none⟩], none⟩

/-- C6 counterexample: element ids in the output of `convert` are not pairwise
distinct — a duplicated edge yields two arrow elements that both carry the id
`edge_a_b`. -/
theorem element_ids_not_unique_counterexample :
    ¬ (((convert c6Doc).elements.map (fun e => e.id)).Nodup) := by
  intro hnodup
  obtain ⟨sp, hsp⟩ := Option.isSome_iff_exists.mp
    (positions_total 2000 c6Doc.nodes c6Doc.edges
      ⟨"a", none, none, none, none, []⟩ (by decide))
  obtain ⟨tp, htp⟩ := Option.isSome_iff_exists.mp
    (positions_total 2000 c6Doc.nodes c6Doc.edges
      ⟨"b", none, none, none, none, []⟩ (by decide))
  have hb := calculate_layout_y_bound 2000 c6Doc.nodes c6Doc.edges "a" sp hsp
  obtain ⟨-, arrow, rest, hce, -, hid⟩ :=
    create_edge_emits (calculate_layout 2000 c6Doc.nodes c6Doc.edges)
      ⟨"a", "b", none, none⟩ sp tp hsp htp
      (by
        have h1 := hb.1
        have h2 := hb.2
        rw [h2]
        linarith)
  -- the element list contains the arrow id at least twice
  have hsplit : (convert c6Doc).elements =
      (create_title c6Doc 0).1 ++
      (convert_nodes (calculate_layout 2000 c6Doc.nodes c6Doc.edges) c6Doc.nodes
        (create_title c6Doc 0).2).1 ++
      (([] ++ create_edge (calculate_layout 2000 c6Doc.nodes c6Doc.edges)
          ⟨"a", "b", none, none⟩) ++
        create_edge (calculate_layout 2000 c6Doc.nodes c6Doc.edges)
          ⟨"a", "b", none, none⟩) ++ [] := rfl
  have hcount2 : 2 ≤ ((convert c6Doc).elements.map (fun e => e.id)).count arrow.id := by
    rw [hsplit]
    simp only [List.map_append, List.count_append, hce, List.nil_append,
      List.map_cons, List.count_cons_self]
    have : 0 ≤ ((create_title c6Doc 0).1.map (fun e => e.id)).count arrow.id := by omega
    omega
  have hle := List.nodup_iff_count_le_one.mp hnodup arrow.id
  omega

/-- C6 amended: the ids produced by the monotonic counter are pairwise
distinct — distinct counter states always yield distinct `element_{k}`
strings — but ids derived from node/edge keys (such as `edge_{src}_{tgt}`)
repeat whenever two edges share the same source and target, so the element
ids of a conversion are not unique in general. -/
theorem counter_ids_pairwise_distinct (c₁ c₂ : Nat) (h : c₁ ≠ c₂) :
    (generate_id c₁).1 ≠ (generate_id c₂).1 :=
  fun hc => h (generate_id_injective c₁ c₂ hc)

theorem counter_ids_pairwise_distinct_witness :
    (generate_id 0).1 ≠ (generate_id 1).1 :=
  counter_ids_pairwise_distinct 0 1 (by decide)

theorem get_edge_points_two (positions : Dict NodePosition) (s t : String) :
    ∃ p q, get_edge_points positions s t = [p, q] := by
  unfold get_edge_points
  cases dget positions s <;> cases dget positions t <;> exact ⟨_, _, rfl⟩

/-- C8: the three style lookups are total, with the documented fallbacks: a
node of unknown type renders as a rectangle with the gear fallback icon, a
node of unknown status gets the `"stable"` colour pair, and an edge of
unknown interaction gets the `"sync"` line style and width. -/
theorem style_fallbacks_total :
    (∀ (n : Node) (p : NodePosition) (c : Nat) (ty : String), n.type = some ty →
      ty ∉ ["client", "gateway", "service", "database", "cache", "queue",
        "third_party"] →
      (((create_node n p c).1[0]?).map (fun e => e.type)) = some "rectangle" ∧
      (((create_node n p c).1[1]?).map (fun e => e.text)) =
        some (some ("⚙️ " ++ n.label.getD n.id))) ∧
    (∀ (n : Node) (p : NodePosition) (c : Nat) (st : String), n.status = some st →
      st ∉ ["new", "modified", "stable"] →
      (((create_node n p c).1[0]?).map (fun e => (e.strokeColor, e.backgroundColor))) =
        some ("#868e96", some "#e9ecef")) ∧
    (∀ (positions : Dict NodePosition) (e : Edge) (ia : String) (arrow : Element)
      (rest : List Element), e.interaction = some ia →
      ia ∉ ["sync", "async"] →
      create_edge positions e = arrow :: rest →
      arrow.strokeStyle = "solid" ∧ arrow.strokeWidth = 2) := by
  refine ⟨?_, ?_, ?_⟩
  · intro n p c ty hty hnot
    have hshape : dget TYPE_TO_SHAPE ty = none :=
      dget_none_of_not_mem_keys _ _ (by simpa [TYPE_TO_SHAPE] using hnot)
    have hicon : dget TYPE_TO_ICON ty = none :=
      dget_none_of_not_mem_keys _ _ (by simpa [TYPE_TO_ICON] using hnot)
    constructor
    · simp [create_node, hty, hshape]
    · simp [create_node, hty, hicon]
  · intro n p c st hst hnot
    have hcol : dget STATUS_TO_COLOR st = none :=
      dget_none_of_not_mem_keys _ _ (by simpa [STATUS_TO_COLOR] using hnot)
    simp [create_node, hst, hcol]
  · intro positions e ia arrow rest hia hnot hce
    have hstroke : dget INTERACTION_TO_STROKE ia = none :=
      dget_none_of_not_mem_keys _ _ (by simpa [INTERACTION_TO_STROKE] using hnot)
    obtain ⟨p, q, hpq⟩ := get_edge_points_two positions e.source e.target
    unfold create_edge at hce
    rw [hpq] at hce
    by_cases hcond : ([p, q] : List (ℚ × ℚ)) = [] ∨ [p, q] = [(0, 0), (0, 0)]
    · rw [if_pos hcond] at hce
      exact absurd hce.symm (List.cons_ne_nil arrow rest)
    · rw [if_neg hcond] at hce
      obtain ⟨px, py⟩ := p
      obtain ⟨qx, qy⟩ := q
      simp only [hia] at hce
      have harrow := (List.cons_eq_cons.mp hce).1
      rw [← harrow]
      simp [Option.getD_some, hstroke, Option.getD_none]

theorem style_fallbacks_total_witness :
    ((((create_node ⟨"n1", none, some "mystery", none, none, []⟩
        unreachablePosition 0).1[0]?).map (fun e => e.type)) = some "rectangle") ∧
    ((((create_node ⟨"n1", none, none, some "odd", none, []⟩
        unreachablePosition 0).1[0]?).map
          (fun e => (e.strokeColor, e.backgroundColor))) =
      some ("#868e96", some "#e9ecef")) := by
  constructor
  · exact (style_fallbacks_total.1 ⟨"n1", none, some "mystery", none, none, []⟩
      unreachablePosition 0 "mystery" rfl (by decide)).1
  · exact style_fallbacks_total.2.1 ⟨"n1", none, none, some "odd", none, []⟩
      unreachablePosition 0 "odd" rfl (by decide)

/-- Raw fixture for C9: a node record without an id, labelled `A`. -/
def c9Raw1 : RawDoc :=
  ⟨none, none, none, [⟨none, some "A", none, none, none, []⟩], [], none⟩

/-- Raw fixture for C9: a different offending node record, labelled `B`. -/
def c9Raw2 : RawDoc :=
  ⟨none, none, none, [⟨none, some "B", none, none, none, []⟩], [], none⟩

/-- C9 counterexample: conversion does fail fast on a record without an id,
but the raised error carries only the missing key name, so two documents with
different offending records produce the very same error value — the error does
not identify the offending record. -/
theorem missing_field_error_not_record_identifying :
    convertE c9Raw1 = Except.error "id" ∧ convertE c9Raw2 = Except.error "id" ∧
    c9Raw1 ≠ c9Raw2 :=
  ⟨rfl, rfl, by decide⟩

/-- C9 amended: conversion of a raw document succeeds exactly when every node
carries an id and every edge carries a source and a target; a missing node id
raises `KeyError: id`; every raised error names one of the three required
keys (never the offending record); and a missing edge endpoint also raises. -/
theorem convert_raises_only_on_missing_fields (doc : RawDoc) :
    ((∀ n ∈ doc.nodes, n.id.isSome) ∧
      (∀ e ∈ doc.edges, e.source.isSome ∧ e.target.isSome) →
      ∃ out, convertE doc = Except.ok out) ∧
    ((∃ n ∈ doc.nodes, n.id = none) → convertE doc = Except.error "id") ∧
    (∀ err, convertE doc = Except.error err →
      err = "id" ∨ err = "source" ∨ err = "target") ∧
    ((∃ e ∈ doc.edges, e.source = none ∨ e.target = none) →
      ∃ err, convertE doc = Except.error err) := by
  refine ⟨?_, ?_, ?_, ?_⟩
  · rintro ⟨hids, hfields⟩
    obtain ⟨ns, hns⟩ := read_nodes_ok_of_ids doc.nodes hids
    obtain ⟨es, hes⟩ := read_edges_ok_of_fields doc.edges hfields
    have hok : convertE doc = Except.ok (convert
        ⟨doc.round_id, doc.round_title, doc.decision_rationale, ns, es,
          doc.evolution_tracking⟩) := by
      unfold convertE
      rw [hns, hes]
    exact ⟨_, hok⟩
  · intro hmiss
    have h := read_nodes_error_of_missing doc.nodes hmiss
    unfold convertE
    rw [h]
  · intro err herr
    unfold convertE at herr
    cases hns : read_nodes doc.nodes with
    | error e' =>
        rw [hns] at herr
        injection herr with h
        rw [← h]
        exact Or.inl (read_nodes_error doc.nodes e' hns)
    | ok ns =>
        rw [hns] at herr
        cases hes : read_edges doc.edges with
        | error e' =>
            rw [hes] at herr
            injection herr with h
            rw [← h]
            rcases read_edges_error doc.edges e' hes with h' | h'
            · exact Or.inr (Or.inl h')
            · exact Or.inr (Or.inr h')
        | ok es => rw [hes] at herr; simp at herr
  · intro hmiss
    by_cases hids : ∀ n ∈ doc.nodes, n.id.isSome
    · obtain ⟨ns, hns⟩ := read_nodes_ok_of_ids doc.nodes hids
      obtain ⟨err, herr⟩ := read_edges_error_of_missing doc.edges hmiss
      refine ⟨err, ?_⟩
      unfold convertE
      rw [hns, herr]
    · push_neg at hids
      obtain ⟨n, hn, hnone⟩ := hids
      refine ⟨"id", ?_⟩
      have h := read_nodes_error_of_missing doc.nodes
        ⟨n, hn, Option.not_isSome_iff_eq_none.mp hnone⟩
      unfold convertE
      rw [h]

/-- Raw fixture for the C9 witness: an anonymous node record missing its id. -/
def c9Raw3 : RawDoc :=
  ⟨none, none, none, [⟨none, none, none, none, none, []⟩], [], none⟩

theorem convert_raises_only_on_missing_fields_witness :
    convertE c9Raw3 = Except.error "id" :=
  (convert_raises_only_on_missing_fields c9Raw3).2.1
    ⟨⟨none, none, none, none, none, []⟩, by decide, rfl⟩

end ArchConv
